import Mathlib

/-!
Verification of the Agones GameServer controller core: a shallow embedding of
the GameServerSet reconciler (`pkg/gameserversets/controller.go`), the
GameServer data model with its defaulting, validation and pod projection
(`pkg/apis/stable/v1alpha1/gameserver.go`), and the dynamic port allocator
(`pkg/gameservers/portallocator.go`), together with proofs and refutations of
the stated behavioural properties.

Go maps are embedded as association lists; Go map iteration order is
unspecified, so the list order here is one admissible iteration order.
Go `int`/`int32` counters never approach overflow in the quantities involved,
so they are embedded as `Int` (or `Nat` for non-negative list counts).
-/

namespace Agones

/-! ### Data model: `pkg/apis/stable/v1alpha1` -/

/-- Group name constant, `stable.GroupName`. -/
def stableGroupName : String := "stable.agones.dev"

/-- Annotation key `stable.VersionAnnotation` (`<group>/sdk-version`). -/
def versionAnnKey : String := stableGroupName ++ "/sdk-version"

/-- Build version, `pkg.Version` (the concrete value is irrelevant here). -/
def pkgVersion : String := "0.4.0"

def GameServerStatePortAllocation : String := "PortAllocation"

def GameServerStateCreating : String := "Creating"

def GameServerStateStarting : String := "Starting"

def GameServerStateScheduled : String := "Scheduled"

def GameServerStateRequestReady : String := "RequestReady"

def GameServerStateReady : String := "Ready"

def GameServerStateShutdown : String := "Shutdown"

def GameServerStateError : String := "Error"

def GameServerStateUnhealthy : String := "Unhealthy"

def GameServerStateAllocated : String := "Allocated"

/-- PortPolicy `static`. -/
def Static : String := "static"

/-- PortPolicy `dynamic`. -/
def Dynamic : String := "dynamic"

def RoleLabel : String := stableGroupName ++ "/role"

def GameServerLabelRole : String := "gameserver"

def GameServerPodLabel : String := stableGroupName ++ "/gameserver"

/-- Annotation key `GameServerContainerAnnotation` (`<group>/container`). -/
def gsContainerAnnKey : String := stableGroupName ++ "/container"

def SidecarServiceAccountName : String := "agones-sdk"

/-- SchedulingStrategy `Packed`. -/
def Packed : String := "Packed"

/-- SchedulingStrategy `Distributed`. -/
def Distributed : String := "Distributed"

/-- metav1.OwnerReference (the fields the embedded code touches). -/
structure OwnerReference where
  apiVersion : String
  kind : String
  name : String
  uid : String
  controller : Bool
deriving DecidableEq

/-- metav1.ObjectMeta, restricted to the fields the embedded code reads or
writes.  `deletionTimestamp` is an `Option`: `none` plays the role of the Go
nil pointer (whose `IsZero()` is true); k8s never stores the zero time in a
set pointer.  Label and annotation maps are association lists. -/
structure ObjectMeta where
  name : String := ""
  generateName : String := ""
  nspace : String := ""
  uid : String := ""
  resourceVersion : String := ""
  labels : List (String × String) := []
  annotations : List (String × String) := []
  finalizers : List String := []
  ownerReferences : List OwnerReference := []
  deletionTimestamp : Option Int := none
  creationTimestamp : Int := 0
deriving DecidableEq

/-- corev1.ContainerPort. -/
structure ContainerPort where
  containerPort : Int
  hostPort : Int
  protocol : String
deriving DecidableEq

/-- corev1.Container (name, image and ports; other fields are inert here). -/
structure CoreContainer where
  name : String
  image : String := ""
  ports : List ContainerPort := []
deriving DecidableEq

/-- corev1.WeightedPodAffinityTerm restricted to what `podScheduling` sets. -/
structure WeightedPodAffinityTerm where
  weight : Int
  topologyKey : String
  matchLabels : List (String × String)
deriving DecidableEq

/-- corev1.PodAffinity (only the preferred-during-scheduling list). -/
structure PodAffinity where
  preferred : List WeightedPodAffinityTerm := []
deriving DecidableEq

/-- corev1.Affinity. -/
structure Affinity where
  podAffinity : Option PodAffinity := none
deriving DecidableEq

/-- corev1.PodSpec restricted to the fields the embedded code touches. -/
structure PodSpec where
  containers : List CoreContainer := []
  serviceAccountName : String := ""
  affinity : Option Affinity := none
deriving DecidableEq

/-- corev1.PodTemplateSpec. -/
structure PodTemplateSpec where
  objectMeta : ObjectMeta := {}
  spec : PodSpec := {}
deriving DecidableEq

/-- corev1.Pod. -/
structure Pod where
  objectMeta : ObjectMeta := {}
  spec : PodSpec := {}
deriving DecidableEq

/-- v1alpha1.GameServerPort. -/
structure GameServerPort where
  name : String := ""
  portPolicy : String := ""
  containerPort : Int := 0
  hostPort : Int := 0
  protocol : String := ""
deriving DecidableEq

/-- v1alpha1.Health. -/
structure Health where
  disabled : Bool := false
  periodSeconds : Int := 0
  failureThreshold : Int := 0
  initialDelaySeconds : Int := 0
deriving DecidableEq

/-- v1alpha1.GameServerSpec. -/
structure GameServerSpec where
  container : String := ""
  ports : List GameServerPort := []
  health : Health := {}
  scheduling : String := ""
  template : PodTemplateSpec := {}
deriving DecidableEq

/-- v1alpha1.GameServerStatusPort. -/
structure GameServerStatusPort where
  name : String := ""
  port : Int := 0
deriving DecidableEq

/-- v1alpha1.GameServerStatus. -/
structure GameServerStatus where
  state : String := ""
  ports : List GameServerStatusPort := []
  address : String := ""
  nodeName : String := ""
deriving DecidableEq

/-- v1alpha1.GameServer. -/
structure GameServer where
  objectMeta : ObjectMeta := {}
  spec : GameServerSpec := {}
  status : GameServerStatus := {}
deriving DecidableEq

/-- GameServer.CountPorts: the number of ports with the given policy. -/
def GameServer.CountPorts (gs : GameServer) (policy : String) : Nat :=
  (gs.spec.ports.filter (fun p => p.portPolicy == policy)).length

/-- GameServer.HasPortPolicy. -/
def GameServer.HasPortPolicy (gs : GameServer) (policy : String) : Bool :=
  gs.spec.ports.any (fun p => p.portPolicy == policy)

/-! ### Defaulting: `GameServer.ApplyDefaults` and helpers -/

/-- applyContainerDefaults: with exactly one template container, `container`
is set to its name. -/
def applyContainerDefaults (gs : GameServer) : GameServer :=
  match gs.spec.template.spec.containers with
  | [c] => { gs with spec := { gs.spec with container := c.name } }
  | _ => gs

/-- applyPortDefaults: empty policy becomes `dynamic`, empty protocol `UDP`. -/
def applyPortDefaults (gs : GameServer) : GameServer :=
  { gs with spec := { gs.spec with ports := gs.spec.ports.map (fun p =>
      let p := if p.portPolicy == "" then { p with portPolicy := Dynamic } else p
      if p.protocol == "" then { p with protocol := "UDP" } else p) } }

/-- applyStateDefaults: an empty state becomes `Creating`, or `PortAllocation`
when some port has the dynamic policy. -/
def applyStateDefaults (gs : GameServer) : GameServer :=
  if gs.status.state == "" then
    if gs.HasPortPolicy Dynamic then
      { gs with status := { gs.status with state := GameServerStatePortAllocation } }
    else
      { gs with status := { gs.status with state := GameServerStateCreating } }
  else gs

/-- applyHealthDefaults: when health checking is enabled, non-positive timing
fields receive their defaults. -/
def applyHealthDefaults (gs : GameServer) : GameServer :=
  if gs.spec.health.disabled then gs
  else
    let h := gs.spec.health
    let h := if h.periodSeconds ≤ 0 then { h with periodSeconds := 5 } else h
    let h := if h.failureThreshold ≤ 0 then { h with failureThreshold := 3 } else h
    let h := if h.initialDelaySeconds ≤ 0 then { h with initialDelaySeconds := 5 } else h
    { gs with spec := { gs.spec with health := h } }

/-- applySchedulingDefaults: empty scheduling becomes `Packed`. -/
def applySchedulingDefaults (gs : GameServer) : GameServer :=
  if gs.spec.scheduling == "" then
    { gs with spec := { gs.spec with scheduling := Packed } }
  else gs

/-- GameServer.ApplyDefaults.  Note the finalizer is appended unconditionally,
exactly as in the source. -/
def ApplyDefaults (gs : GameServer) : GameServer :=
  let gs := { gs with objectMeta :=
    { gs.objectMeta with finalizers := gs.objectMeta.finalizers ++ [stableGroupName] } }
  applySchedulingDefaults (applyHealthDefaults (applyStateDefaults
    (applyPortDefaults (applyContainerDefaults gs))))

/-! ### Validation: `GameServer.Validate` -/

/-- metav1.StatusCause. -/
structure StatusCause where
  type : String
  field : String
  message : String
deriving DecidableEq

def CauseTypeFieldValueInvalid : String := "FieldValueInvalid"

/-- FindGameServerContainer, via an explicit index-carrying scan returning the
first container whose name equals `spec.container` together with its index. -/
def findContainerAux (name : String) : Nat → List CoreContainer → Option (Nat × CoreContainer)
  | _, [] => none
  | i, c :: cs => if c.name == name then some (i, c) else findContainerAux name (i + 1) cs

/-- GameServer.FindGameServerContainer (the `Option` plays the Go error). -/
def FindGameServerContainer (gs : GameServer) : Option (Nat × CoreContainer) :=
  findContainerAux gs.spec.container 0 gs.spec.template.spec.containers

/-- GameServer.Validate: returns `(len(causes) == 0, causes)`. -/
def Validate (gs : GameServer) : Bool × List StatusCause :=
  let causes : List StatusCause :=
    if gs.spec.container.length == 0 && gs.spec.template.spec.containers.length > 1 then
      [⟨CauseTypeFieldValueInvalid, "container",
        "Container is required when using multiple containers in the pod template"⟩]
    else []
  let causes := causes ++ gs.spec.ports.filterMap (fun p =>
    if p.hostPort > 0 && p.portPolicy == Dynamic then
      some ⟨CauseTypeFieldValueInvalid, p.name ++ ".hostPort",
        "HostPort cannot be specified with a Dynamic PortPolicy"⟩
    else none)
  let causes := causes ++
    (if (FindGameServerContainer gs).isNone then
      [⟨CauseTypeFieldValueInvalid, "container",
        "Could not find a container named " ++ gs.spec.container⟩]
    else [])
  (causes.isEmpty, causes)

/-! ### Pod projection: `GameServer.Pod`, `podObjectMeta`, `podScheduling` -/

/-- Assignment `m[k] = v` on a Go map embedded as an association list:
replace the value when the key is present, append the binding otherwise
(an absent/nil map is the empty list). -/
def mapInsert (m : List (String × String)) (k v : String) : List (String × String) :=
  if m.any (fun e => e.1 == k) then m.map (fun e => if e.1 == k then (k, v) else e)
  else m ++ [(k, v)]

/-- metav1.NewControllerRef for a GameServer. -/
def NewControllerRef (gs : GameServer) : OwnerReference :=
  { apiVersion := stableGroupName ++ "/v1alpha1", kind := "GameServer",
    name := gs.objectMeta.name, uid := gs.objectMeta.uid, controller := true }

/-- podObjectMeta configures the pod ObjectMeta details; it also writes the
sdk-version annotation into the receiver GameServer's ObjectMeta, so the
updated GameServer is returned alongside the pod. -/
def podObjectMeta (gs : GameServer) (pod : Pod) : Pod × GameServer :=
  let m := pod.objectMeta
  let m := { m with generateName := "", name := gs.objectMeta.name,
                    nspace := gs.objectMeta.nspace, resourceVersion := "", uid := "" }
  let m := { m with labels := mapInsert m.labels RoleLabel GameServerLabelRole }
  let m := { m with labels := mapInsert m.labels GameServerPodLabel gs.objectMeta.name }
  let m := { m with annotations := mapInsert m.annotations gsContainerAnnKey gs.spec.container }
  let m := { m with ownerReferences := m.ownerReferences ++ [NewControllerRef gs] }
  let m := if gs.spec.scheduling == Packed then
      { m with annotations :=
        mapInsert m.annotations "cluster-autoscaler.kubernetes.io/safe-to-evict" "false" }
    else m
  let m := { m with annotations := mapInsert m.annotations versionAnnKey pkgVersion }
  let gsMeta := { gs.objectMeta with
    annotations := mapInsert gs.objectMeta.annotations versionAnnKey pkgVersion }
  ({ pod with objectMeta := m }, { gs with objectMeta := gsMeta })

/-- podScheduling: for Packed scheduling, append the preferred pod-affinity
term (weight 100, hostname topology, gameserver role selector). -/
def podScheduling (gs : GameServer) (pod : Pod) : Pod :=
  if gs.spec.scheduling == Packed then
    let aff := (pod.spec.affinity.getD {}).podAffinity.getD {}
    let wpat : WeightedPodAffinityTerm :=
      { weight := 100, topologyKey := "kubernetes.io/hostname",
        matchLabels := [(RoleLabel, GameServerLabelRole)] }
    let newAff : Option Affinity :=
      some { podAffinity := some { preferred := aff.preferred ++ [wpat] } }
    { pod with spec := { pod.spec with affinity := newAff } }
  else pod

/-- GameServer.Pod: build the backing pod from the template.  The result is
the pod, the (mutated) receiver GameServer, and the Go error as an
`Option String`. -/
def GameServer.Pod (gs : GameServer) (sidecars : List CoreContainer) :
    Agones.Pod × GameServer × Option String :=
  let pod : Agones.Pod :=
    { objectMeta := gs.spec.template.objectMeta, spec := gs.spec.template.spec }
  let (pod, gsUpdated) := podObjectMeta gs pod
  let pod := if pod.spec.serviceAccountName == "" then
      { pod with spec := { pod.spec with serviceAccountName := SidecarServiceAccountName } }
    else pod
  match FindGameServerContainer gs with
  | none => (pod, gsUpdated, some ("Could not find a container named " ++ gs.spec.container))
  | some (i, gsContainer) =>
    let cports : List ContainerPort := gs.spec.ports.map (fun p =>
      { containerPort := p.containerPort, hostPort := p.hostPort, protocol := p.protocol })
    let gsContainer := { gsContainer with ports := gsContainer.ports ++ cports }
    let pod := { pod with spec := { pod.spec with
      containers := pod.spec.containers.set i gsContainer } }
    let pod := { pod with spec := { pod.spec with
      containers := pod.spec.containers ++ sidecars } }
    (podScheduling gs pod, gsUpdated, none)

/-! ### GameServerSet reconciliation: `pkg/gameserversets/controller.go` -/

def maxGameServerCreationsPerBatch : Int := 64

def maxGameServerDeletionsPerBatch : Int := 64

def maxPodPendingCount : Int := 5000

/-- isAllocated: deletion timestamp unset (nil) and state Allocated. -/
def isAllocated (gs : GameServer) : Bool :=
  gs.objectMeta.deletionTimestamp.isNone && gs.status.state == GameServerStateAllocated

/-- scheduleDeletion: add to the deletion list only when the deletion
timestamp is zero. -/
def scheduleDeletion (toDelete : List GameServer) (gs : GameServer) : List GameServer :=
  if gs.objectMeta.deletionTimestamp.isNone then toDelete ++ [gs] else toDelete

/-- handleGameServerUp: count towards the target, or schedule surplus for
deletion once the target is reached. -/
def handleGameServerUp (target up : Int) (toDelete : List GameServer) (gs : GameServer) :
    Int × List GameServer :=
  if up ≥ target then (up, scheduleDeletion toDelete gs) else (up + 1, toDelete)

/-- Pass 1 of computeReconciliationAction: count allocated servers. -/
def allocatedCount (list : List GameServer) : Int :=
  ((list.filter isAllocated).length : Int)

/-- Whether a state is one of the four pod-pending states. -/
def isPodPendingState (st : String) : Bool :=
  st == GameServerStatePortAllocation || st == GameServerStateCreating ||
  st == GameServerStateStarting || st == GameServerStateScheduled

/-- One iteration of pass 2 of computeReconciliationAction over the
accumulator (upCount, podPendingCount, toDelete). -/
def pass2Step (target : Int) (acc : Int × Int × List GameServer) (gs : GameServer) :
    Int × Int × List GameServer :=
  let (up, pending, toDelete) := acc
  if isAllocated gs then acc
  else if !gs.objectMeta.deletionTimestamp.isNone then acc
  else if isPodPendingState gs.status.state then
    let r := handleGameServerUp target up toDelete gs
    (r.1, pending + 1, r.2)
  else if gs.status.state == GameServerStateError ||
          gs.status.state == GameServerStateUnhealthy then
    (up, pending, scheduleDeletion toDelete gs)
  else
    let r := handleGameServerUp target up toDelete gs
    (r.1, pending, r.2)

/-- Both passes of computeReconciliationAction: upCount, podPendingCount and
the raw deletion candidate list (before the deletion cap). -/
def pass2 (list : List GameServer) (target : Int) : Int × Int × List GameServer :=
  list.foldl (pass2Step target) (allocatedCount list, 0, [])

/-- Result triple of computeReconciliationAction. -/
structure ReconciliationAction where
  numServersToAdd : Int
  toDelete : List GameServer
  partialReconciliation : Bool
deriving DecidableEq

/-- Deletion preference: newer first (descending creation timestamp). -/
def gsNewerFirst (a b : GameServer) : Prop :=
  b.objectMeta.creationTimestamp ≤ a.objectMeta.creationTimestamp

instance : DecidableRel gsNewerFirst := fun a b =>
  inferInstanceAs (Decidable (b.objectMeta.creationTimestamp ≤ a.objectMeta.creationTimestamp))

instance : IsTotal GameServer gsNewerFirst :=
  ⟨fun a b => by
    unfold gsNewerFirst
    exact le_total _ _⟩

instance : IsTrans GameServer gsNewerFirst :=
  ⟨fun a b c h1 h2 => by
    unfold gsNewerFirst at h1 h2 ⊢
    exact le_trans h2 h1⟩

/-- computeReconciliationAction.  The Go sort is unstable; any permutation
sorted by descending creation timestamp is an admissible result, and
insertion sort realises one such permutation. -/
def computeReconciliationAction (list : List GameServer)
    (targetReplicaCount maxCreations maxDeletions maxPending : Int) : ReconciliationAction :=
  let upCount := (pass2 list targetReplicaCount).1
  let podPendingCount := (pass2 list targetReplicaCount).2.1
  let toDelete := (pass2 list targetReplicaCount).2.2
  let creates : Int × Bool :=
    if upCount < targetReplicaCount then
      let original := targetReplicaCount - upCount
      let n := if original > maxCreations then maxCreations else original
      let n := if n + podPendingCount > maxPending then
          (if maxPending - podPendingCount < 0 then 0 else maxPending - podPendingCount)
        else n
      (n, original != n)
    else (0, false)
  let dels : List GameServer × Bool :=
    if (toDelete.length : Int) > maxDeletions then
      ((toDelete.insertionSort gsNewerFirst).take maxDeletions.toNat, true)
    else (toDelete, false)
  ⟨creates.1, dels.1, creates.2 || dels.2⟩

/-! ### Dynamic port allocator: `pkg/gameservers/portallocator.go`

A per-node `portAllocation` (Go `map[int32]bool`) is an association list of
`(port, taken)` entries; the list order embodies one admissible map iteration
order.  The allocator state holds the ordered node maps, the UID registry
(a Go `map[types.UID]bool`, i.e. a set), and the port window. -/

/-- One node's port map: `port → taken?`. -/
abbrev NodeMap := List (Int × Bool)

/-- PortAllocator state. -/
structure PortAllocator where
  portAllocations : List NodeMap
  gameServerRegistry : List String
  minPort : Int
  maxPort : Int
deriving DecidableEq

/-- Lookup in a node map; a missing key reads as `false`, as in Go. -/
def lookupPort (n : NodeMap) (port : Int) : Bool :=
  ((n.find? (fun e => e.1 == port)).map Prod.snd).getD false

/-- Map assignment `n[port] = b`: replace the entries carrying the key, or
append the binding when the key is absent. -/
def mapWrite (n : NodeMap) (port : Int) (b : Bool) : NodeMap :=
  if n.any (fun e => e.1 == port) then
    n.map (fun e => if e.1 == port then (port, b) else e)
  else n ++ [(port, b)]

/-- The inclusive integer range `[lo, hi]` as a list. -/
def intRange (lo hi : Int) : List Int :=
  (List.range (hi + 1 - lo).toNat).map (fun (k : Nat) => lo + (k : Int))

/-- newPortAllocation: a full-window node map with every port free. -/
def newPortAllocation (minP maxP : Int) : NodeMap :=
  (intRange minP maxP).map (fun p => (p, false))

/-- The open ports of one node map, in iteration order. -/
def nodeOpenPorts (n : NodeMap) : List Int :=
  (n.filter (fun e => !e.2)).map Prod.fst

/-- All `(node index, port)` pairs with the port free, node by node — the
enumeration order of the double loop in `findOpenPorts`. -/
def allOpenPortsFrom : Nat → List NodeMap → List (Nat × Int)
  | _, [] => []
  | i, n :: ns => (nodeOpenPorts n).map (fun p => (i, p)) ++ allOpenPortsFrom (i + 1) ns

def allOpenPorts (maps : List NodeMap) : List (Nat × Int) :=
  allOpenPortsFrom 0 maps

/-- findOpenPorts: collect open ports until `amount` are gathered.  The Go
loop returns early exactly when the running count reaches `amount`; with
`amount = 0` that early return never fires and every open port is returned. -/
def findOpenPorts (pa : PortAllocator) (amount : Nat) : List (Nat × Int) :=
  if amount = 0 then allOpenPorts pa.portAllocations
  else (allOpenPorts pa.portAllocations).take amount

/-- Pop allocations off the front of the list, assigning each dynamic port's
HostPort in order; other ports are untouched.  The guard in `Allocate`
ensures the allocation list never runs dry (the `[]` fallback is the Go
out-of-range panic, unreachable under the guard). -/
def assignPorts : List GameServerPort → List (Nat × Int) → List GameServerPort
  | [], _ => []
  | p :: ps, allocs =>
    if p.portPolicy == Dynamic then
      match allocs with
      | [] => p :: assignPorts ps []
      | a :: rest => { p with hostPort := a.2 } :: assignPorts ps rest
    else p :: assignPorts ps allocs

/-- Mark one collected `(node index, port)` slot taken (`a.pa[a.port] = true`). -/
def markAllocation (maps : List NodeMap) (a : Nat × Int) : List NodeMap :=
  maps.set a.1 (mapWrite (maps.getD a.1 []) a.2 true)

/-- Go map insertion `registry[uid] = true` on the UID set. -/
def registryInsert (reg : List String) (uid : String) : List String :=
  if reg.contains uid then reg else uid :: reg

/-- The recursive core of `Allocate`, made total with explicit fuel: each
level either finds enough open ports and commits, or appends a brand-new
full-window node map and retries.  `none` means the recursion did not
terminate within `fuel` levels. -/
def allocateFuel : Nat → PortAllocator → GameServer → Option (PortAllocator × GameServer)
  | 0, _, _ => none
  | fuel + 1, pa, gs =>
    let amount := gs.CountPorts Dynamic
    let allocations := findOpenPorts pa amount
    if allocations.length = amount then
      some ({ pa with
              gameServerRegistry := registryInsert pa.gameServerRegistry gs.objectMeta.uid,
              portAllocations := allocations.foldl markAllocation pa.portAllocations },
            { gs with spec := { gs.spec with ports := assignPorts gs.spec.ports allocations } })
    else
      allocateFuel fuel
        { pa with portAllocations := pa.portAllocations ++ [newPortAllocation pa.minPort pa.maxPort] }
        gs

/-- Allocate.  For a GameServer with at least one dynamic port, fuel
`amount + 1` always suffices (proved below), so this equals the Go function
whenever the Go recursion terminates. -/
def Allocate (pa : PortAllocator) (gs : GameServer) : Option (PortAllocator × GameServer) :=
  allocateFuel (gs.CountPorts Dynamic + 1) pa gs

/-- The Go `Allocate` recursion terminates on this input. -/
def AllocateTerminates (pa : PortAllocator) (gs : GameServer) : Prop :=
  ∃ fuel, (allocateFuel fuel pa gs).isSome = true

/-- setPortAllocation: flip the first node map whose current value for the
port differs from `taken`. -/
def setPortAllocation (port : Int) : List NodeMap → Bool → List NodeMap
  | [], _ => []
  | n :: ns, taken =>
    if lookupPort n port != taken then mapWrite n port taken :: ns
    else n :: setPortAllocation port ns taken

/-- DeAllocate: no-op unless the UID is registered; otherwise free, for every
port of the GameServer inside the window, the first node map where it is
taken, and drop the UID from the registry. -/
def DeAllocate (pa : PortAllocator) (gs : GameServer) : PortAllocator :=
  if pa.gameServerRegistry.contains gs.objectMeta.uid then
    { pa with
      portAllocations := gs.spec.ports.foldl
        (fun maps p =>
          if p.hostPort < pa.minPort || p.hostPort > pa.maxPort then maps
          else setPortAllocation p.hostPort maps false)
        pa.portAllocations,
      gameServerRegistry := pa.gameServerRegistry.erase gs.objectMeta.uid }
  else pa

/-! ### Closed system: a GameServer population driven by Allocate/DeAllocate -/

/-- The allocator together with the population of GameServer objects the
calls mutate (keyed by UID). -/
structure AllocatorSystem where
  alloc : PortAllocator
  pop : List GameServer
deriving DecidableEq

/-- One public call on the allocator, naming the target GameServer by UID. -/
inductive AllocatorOp where
  | allocate (uid : String)
  | deallocate (uid : String)
deriving DecidableEq

/-- Find the population's GameServer with the given UID. -/
def findGS (pop : List GameServer) (uid : String) : Option GameServer :=
  pop.find? (fun g => g.objectMeta.uid == uid)

/-- Execute one call: `Allocate` writes the mutated GameServer back into the
population; a call on an unknown UID, or an `Allocate` whose Go recursion
diverges (modelled as fuel exhaustion), leaves the state unchanged. -/
def stepOp (st : AllocatorSystem) : AllocatorOp → AllocatorSystem
  | .allocate uid =>
    match findGS st.pop uid with
    | none => st
    | some gs =>
      match Allocate st.alloc gs with
      | none => st
      | some (pa, gsNew) =>
        { alloc := pa,
          pop := st.pop.map (fun g => if g.objectMeta.uid == uid then gsNew else g) }
  | .deallocate uid =>
    match findGS st.pop uid with
    | none => st
    | some gs => { st with alloc := DeAllocate st.alloc gs }

def runOps (st : AllocatorSystem) : List AllocatorOp → AllocatorSystem
  | [] => st
  | op :: ops => runOps (stepOp st op) ops

/-- A call is legal when an `Allocate` never targets a UID already in the
registry (the duplicate-allocate failure mode the allocator does not
support). -/
def opLegal (st : AllocatorSystem) : AllocatorOp → Bool
  | .allocate uid => !st.alloc.gameServerRegistry.contains uid
  | .deallocate _ => true

def legalOps (st : AllocatorSystem) : List AllocatorOp → Bool
  | [] => true
  | op :: ops => opLegal st op && legalOps (stepOp st op) ops

/-- A freshly constructed allocator (NewPortAllocator): empty node-map list,
empty registry. -/
def initSys (minP maxP : Int) (pop : List GameServer) : AllocatorSystem :=
  { alloc := { portAllocations := [], gameServerRegistry := [], minPort := minP, maxPort := maxP },
    pop := pop }

/-- In how many node maps is the port marked taken. -/
def countTaken (maps : List NodeMap) (p : Int) : Nat :=
  (maps.map (fun n => if lookupPort n p then 1 else 0)).sum

/-- How many of this GameServer's dynamic-policy ports carry `p` as HostPort. -/
def dynPortCount (gs : GameServer) (p : Int) : Nat :=
  (gs.spec.ports.filter (fun q => q.portPolicy == Dynamic && q.hostPort == p)).length

/-- Total number of dynamic-port slots holding `p` across registered
GameServers (counting a GameServer once per port). -/
def holderMultiplicity (st : AllocatorSystem) (p : Int) : Nat :=
  (st.pop.map (fun g =>
    if st.alloc.gameServerRegistry.contains g.objectMeta.uid then dynPortCount g p else 0)).sum

/-- Number of registered GameServers holding `p` on at least one
dynamic-policy port (the counting used by the claim). -/
def holderServers (st : AllocatorSystem) (p : Int) : Nat :=
  (st.pop.filter (fun g =>
    st.alloc.gameServerRegistry.contains g.objectMeta.uid && dynPortCount g p != 0)).length

/-- Free-port count of the allocator. -/
def freeCount (maps : List NodeMap) : Nat :=
  (allOpenPorts maps).length

/-- Well-formed node map: distinct keys, all inside the window. -/
def mapWF (minP maxP : Int) (n : NodeMap) : Prop :=
  (n.map Prod.fst).Nodup ∧ ∀ e ∈ n, minP ≤ e.1 ∧ e.1 ≤ maxP

/-- The allocator system invariant: for every port, the number of node maps
marking it taken equals the number of dynamic-port slots holding it across
registered GameServers; node maps are well-formed; UIDs are unique; the
dynamic ports of registered GameServers sit inside the window while
non-dynamic ports of every GameServer sit outside it. -/
structure SysInv (st : AllocatorSystem) : Prop where
  counts : ∀ p, countTaken st.alloc.portAllocations p = holderMultiplicity st p
  mapsWF : ∀ n ∈ st.alloc.portAllocations, mapWF st.alloc.minPort st.alloc.maxPort n
  popNodup : (st.pop.map (fun g => g.objectMeta.uid)).Nodup
  regNodup : st.alloc.gameServerRegistry.Nodup
  regDyn : ∀ g ∈ st.pop, st.alloc.gameServerRegistry.contains g.objectMeta.uid = true →
    ∀ q ∈ g.spec.ports, q.portPolicy = Dynamic →
      st.alloc.minPort ≤ q.hostPort ∧ q.hostPort ≤ st.alloc.maxPort
  nonDyn : ∀ g ∈ st.pop, ∀ q ∈ g.spec.ports, q.portPolicy ≠ Dynamic →
    (q.hostPort < st.alloc.minPort ∨ st.alloc.maxPort < q.hostPort)

/-- A freshly constructed allocator value on the window [7000, 7001]. -/
def emptyPA : PortAllocator :=
  { portAllocations := [], gameServerRegistry := [], minPort := 7000, maxPort := 7001 }

/-- The claim's formula for the capped number of creations: `target − up`
clamped to `maxCreations`, then clamped so that adding `podPending` stays
within `maxPending` (at least zero). -/
def clampedCreates (target up pending maxC maxP : Int) : Int :=
  let n := min (target - up) maxC
  if maxP < n + pending then max (maxP - pending) 0 else n

/-! ### Concrete fixtures -/

/-- A GameServer in the given state with the given creation timestamp. -/
def gsWithState (st : String) (ts : Int) : GameServer :=
  { objectMeta := { creationTimestamp := ts }, status := { state := st } }

/-- A GameServer pending deletion (deletion timestamp set) in the given
state. -/
def gsDeletingWithState (st : String) : GameServer :=
  { objectMeta := { deletionTimestamp := some 1 }, status := { state := st } }

/-- Four Error GameServers: deletion candidates that overflow a cap of 3. -/
def errorBurstList : List GameServer :=
  [gsWithState GameServerStateError 1, gsWithState GameServerStateError 2,
   gsWithState GameServerStateError 3, gsWithState GameServerStateError 4]

/-- Scenario S4: six Ready GameServers with distinct creation timestamps. -/
def sixReadyList : List GameServer :=
  [gsWithState GameServerStateReady 1, gsWithState GameServerStateReady 2,
   gsWithState GameServerStateReady 3, gsWithState GameServerStateReady 4,
   gsWithState GameServerStateReady 5, gsWithState GameServerStateReady 6]

/-- Scenario S5: two Unhealthy GameServers pending deletion plus one Ready. -/
def scenarioS5List : List GameServer :=
  [gsDeletingWithState GameServerStateUnhealthy, gsDeletingWithState GameServerStateUnhealthy,
   gsWithState GameServerStateReady 1]

/-- The simple GameServer fixture of the defaulting test: one container, one
port. -/
def simpleFixture : GameServer :=
  { spec := { ports := [{ containerPort := 999 }],
              template := { spec := { containers := [{ name := "testing", image := "testing/image" }] } } } }

/-- A GameServer violating both validation rules: empty container name with
two template containers, and a dynamic port with a host port set. -/
def invalidFixture : GameServer :=
  { spec := { container := "",
              ports := [{ name := "main", portPolicy := Dynamic, hostPort := 5001 }],
              template := { spec := { containers :=
                [{ name := "testing", image := "testing/image" },
                 { name := "anothertest", image := "testing/image" }] } } } }

/-- The pod-projection fixture: a named game-server container between two
other containers, one static port, Packed scheduling. -/
def podFixture : GameServer :=
  { objectMeta := { name := "test", nspace := "default", uid := "1234" },
    spec := { container := "container",
              ports := [{ containerPort := 7777, hostPort := 9999, portPolicy := Static,
                          protocol := "UDP" }],
              scheduling := Packed,
              template := { spec := { containers :=
                [{ name := "before", image := "b/i" },
                 { name := "container", image := "container/image" },
                 { name := "after", image := "a/i" }] } } },
    status := { state := GameServerStateCreating } }

/-- A sidecar container. -/
def sidecarFixture : CoreContainer :=
  { name := "sidecar", image := "container/sidecar" }

/-- A GameServer requesting two dynamic ports. -/
def twoDynGS : GameServer :=
  { objectMeta := { uid := "u1" },
    spec := { ports := [{ name := "a", portPolicy := Dynamic, containerPort := 26000 },
                        { name := "b", portPolicy := Dynamic, containerPort := 26001 }] } }

/-- A GameServer with a single static port (zero dynamic ports). -/
def staticOnlyGS : GameServer :=
  { objectMeta := { uid := "s1" },
    spec := { ports := [{ name := "s", portPolicy := Static, containerPort := 26000,
                          hostPort := 26000 }] } }

/-- An allocator with one node map holding a single free port: the state in
which allocating for a zero-dynamic-port GameServer loops forever. -/
def oneFreePortPA : PortAllocator :=
  { portAllocations := [[(7000, false)]], gameServerRegistry := [], minPort := 7000,
    maxPort := 7001 }

/-- A GameServer with one dynamic port. -/
def oneDynGS (uid : String) : GameServer :=
  { objectMeta := { uid := uid },
    spec := { ports := [{ name := "d", portPolicy := Dynamic, containerPort := 26000 }] } }

/-- Scenario S2 list: one Ready GameServer. -/
def singleReadyList : List GameServer := [gsWithState GameServerStateReady 1]

/-- Population for the uniqueness witness: two single-dynamic-port
GameServers. -/
def witnessPop : List GameServer := [oneDynGS "u1", oneDynGS "u2"]

/-- Call sequence for the uniqueness witness. -/
def witnessOps : List AllocatorOp :=
  [AllocatorOp.allocate "u1", AllocatorOp.allocate "u2", AllocatorOp.deallocate "u1"]

/-!
## Theorems

First the GameServerSet reconciliation properties (claims C3–C6), then the
data-model properties (C7–C10), then the port allocator (C1, C2).
-/

/-- A GameServer already pending deletion is skipped by pass 2. -/
theorem pass2Step_of_deleted (t : Int) (acc : Int × Int × List GameServer) (g : GameServer)
    (h : g.objectMeta.deletionTimestamp.isNone = false) : pass2Step t acc g = acc := by
  obtain ⟨up, pending, toDelete⟩ := acc
  simp [pass2Step, isAllocated, h]

/-- Membership in `scheduleDeletion` output. -/
theorem mem_scheduleDeletion {toDelete : List GameServer} {g x : GameServer}
    (h : x ∈ scheduleDeletion toDelete g) :
    x ∈ toDelete ∨ (x = g ∧ g.objectMeta.deletionTimestamp.isNone = true) := by
  unfold scheduleDeletion at h
  split at h
  · rcases List.mem_append.mp h with h1 | h1
    · exact Or.inl h1
    · simp only [List.mem_singleton] at h1
      subst h1
      exact Or.inr ⟨rfl, by assumption⟩
  · exact Or.inl h

/-- Anything pass 2 adds to the deletion list is a non-allocated GameServer
with no deletion timestamp. -/
theorem mem_pass2Step_toDelete {t : Int} {acc : Int × Int × List GameServer}
    {g x : GameServer} (h : x ∈ (pass2Step t acc g).2.2) :
    x ∈ acc.2.2 ∨
      (x = g ∧ isAllocated g = false ∧ g.objectMeta.deletionTimestamp.isNone = true) := by
  obtain ⟨up, pending, toDelete⟩ := acc
  unfold pass2Step at h
  by_cases h1 : isAllocated g
  · simp only [h1, if_true] at h
    exact Or.inl h
  · have h1f : isAllocated g = false := by simpa using h1
    simp only [h1f, Bool.false_eq_true, if_false] at h
    by_cases h2 : g.objectMeta.deletionTimestamp.isNone
    · simp only [h2, Bool.not_true, Bool.false_eq_true, if_false] at h
      have hcase : ∀ r : Int × List GameServer,
          r = handleGameServerUp t up toDelete g → x ∈ r.2 →
          x ∈ toDelete ∨ (x = g ∧ isAllocated g = false ∧
            g.objectMeta.deletionTimestamp.isNone = true) := by
        intro r hr hx
        subst hr
        unfold handleGameServerUp at hx
        split at hx
        · rcases mem_scheduleDeletion hx with hm | hm
          · exact Or.inl hm
          · exact Or.inr ⟨hm.1, h1f, hm.2⟩
        · exact Or.inl hx
      split at h
      · exact hcase _ rfl h
      · split at h
        · rcases mem_scheduleDeletion h with hm | hm
          · exact Or.inl hm
          · exact Or.inr ⟨hm.1, h1f, hm.2⟩
        · exact hcase _ rfl h
    · simp only [Bool.not_eq_true] at h2
      simp only [h2, Bool.not_false, if_true] at h
      exact Or.inl h

/-- Every deletion candidate produced by the two passes is non-allocated and
carries no deletion timestamp. -/
theorem pass2_toDelete_mem (list : List GameServer) (t : Int) :
    ∀ x ∈ (pass2 list t).2.2,
      isAllocated x = false ∧ x.objectMeta.deletionTimestamp.isNone = true := by
  suffices h : ∀ (acc : Int × Int × List GameServer),
      (∀ x ∈ acc.2.2, isAllocated x = false ∧ x.objectMeta.deletionTimestamp.isNone = true) →
      ∀ x ∈ (list.foldl (pass2Step t) acc).2.2,
        isAllocated x = false ∧ x.objectMeta.deletionTimestamp.isNone = true by
    exact h _ (by simp)
  induction list with
  | nil => intro acc hacc; simpa using hacc
  | cons g gsRest ih =>
    intro acc hacc x hx
    refine ih (pass2Step t acc g) ?_ x hx
    intro y hy
    rcases mem_pass2Step_toDelete hy with hm | hm
    · exact hacc y hm
    · obtain ⟨rfl, h1, h2⟩ := hm
      exact ⟨h1, h2⟩

/-- The final deletion list is drawn from the pass-2 candidates. -/
theorem mem_computeRA_toDelete {list : List GameServer} {t maxC maxD maxP : Int}
    {x : GameServer} (h : x ∈ (computeReconciliationAction list t maxC maxD maxP).toDelete) :
    x ∈ (pass2 list t).2.2 := by
  unfold computeReconciliationAction at h
  dsimp only at h
  split at h
  · dsimp only at h
    exact (List.mem_insertionSort gsNewerFirst).mp (List.mem_of_mem_take h)
  · exact h

/-- C4.  No Allocated GameServer with an unset deletion timestamp ever
appears in `toDelete`, for any input list, target and caps (`isAllocated`
is exactly that conjunction). -/
theorem allocated_never_in_toDelete (list : List GameServer) (target maxC maxD maxP : Int) :
    (computeReconciliationAction list target maxC maxD maxP).toDelete.all
      (fun gs => !(isAllocated gs)) = true := by
  rw [List.all_eq_true]
  intro gs hgs
  have h1 := pass2_toDelete_mem list target gs (mem_computeRA_toDelete hgs)
  simp [h1.1]

/-- C3 (amended).  When `up < target`, the number of creations is
`target − up` clamped by `maxCreations` and then by the pending cap; the
partial flag is set exactly when those caps reduced the value **or** the
deletion-candidate list overflowed `maxDeletions`. -/
theorem creates_clamped_and_partial_flag (list : List GameServer) (target maxC maxD maxP : Int)
    (h : (pass2 list target).1 < target) :
    (computeReconciliationAction list target maxC maxD maxP).numServersToAdd =
      clampedCreates target (pass2 list target).1 (pass2 list target).2.1 maxC maxP ∧
    ((computeReconciliationAction list target maxC maxD maxP).partialReconciliation = true ↔
      (clampedCreates target (pass2 list target).1 (pass2 list target).2.1 maxC maxP ≠
         target - (pass2 list target).1 ∨
       maxD < (((pass2 list target).2.2.length : Int)))) := by
  unfold computeReconciliationAction clampedCreates
  dsimp only
  rw [if_pos h]
  constructor
  · dsimp only
    split_ifs <;> omega
  · dsimp only
    constructor
    · intro hp
      rcases Bool.or_eq_true _ _ |>.mp hp with hp1 | hp1
      · left
        have := bne_iff_ne.mp hp1
        split_ifs at this ⊢ <;> omega
      · right
        split at hp1
        · linarith [ ‹((pass2 list target).2.2.length : Int) > maxD› ]
        · simp at hp1
    · intro hp
      apply Bool.or_eq_true _ _ |>.mpr
      rcases hp with hp1 | hp1
      · left
        apply bne_iff_ne.mpr
        intro heq
        apply hp1
        split_ifs at heq ⊢ <;> omega
      · right
        rw [if_pos (by exact_mod_cast hp1)]

/-- Witness for C3 at scenario S2: target 30, one Ready server, caps
`create = 3`, `pending = 3`: three servers are added and the reconciliation
is partial. -/
theorem creates_clamped_and_partial_flag_witness :
    (pass2 singleReadyList 30).1 < 30 ∧
    ((computeReconciliationAction singleReadyList 30 3 3 3).numServersToAdd = 3 ∧
     (computeReconciliationAction singleReadyList 30 3 3 3).partialReconciliation = true) ∧
    (computeReconciliationAction singleReadyList 30 3 3 3).numServersToAdd =
      clampedCreates 30 (pass2 singleReadyList 30).1 (pass2 singleReadyList 30).2.1 3 3 :=
  ⟨by decide, ⟨by decide, by decide⟩,
    (creates_clamped_and_partial_flag singleReadyList 30 3 3 3 (by decide)).1⟩

/-- C3 counterexample to the claim as stated: four Error servers with
target 1 and caps `create = 64`, `delete = 3`, `pending = 5000`.  Here
`up = 0 < 1 = target` and `toAdd = 1 = target − up` — neither create cap
reduced the value — yet `partial = true` (the deletion list was truncated),
refuting "partial = true exactly when one of these two caps reduced the
value". -/
theorem creates_partial_counterexample :
    (pass2 errorBurstList 1).1 = 0 ∧
    (computeReconciliationAction errorBurstList 1 64 3 5000).numServersToAdd = 1 ∧
    (computeReconciliationAction errorBurstList 1 64 3 5000).partialReconciliation = true := by
  decide

/-- C5.  When the deletion candidates overflow `maxDeletions`, the returned
`toDelete` is exactly `maxDeletions` long, the retained-and-spared split is a
permutation of the candidates, every spared candidate is at least as old as
every deleted one, and the reconciliation is partial. -/
theorem deletes_truncated_to_newest (list : List GameServer) (target maxC maxD maxP : Int)
    (h0 : 0 ≤ maxD) (h : maxD < (((pass2 list target).2.2.length : Int))) :
    ∃ spared : List GameServer,
      ((computeReconciliationAction list target maxC maxD maxP).toDelete ++ spared).Perm
        (pass2 list target).2.2 ∧
      (((computeReconciliationAction list target maxC maxD maxP).toDelete.length : Int) = maxD) ∧
      (∀ x ∈ (computeReconciliationAction list target maxC maxD maxP).toDelete,
        ∀ y ∈ spared,
          y.objectMeta.creationTimestamp ≤ x.objectMeta.creationTimestamp) ∧
      (computeReconciliationAction list target maxC maxD maxP).partialReconciliation = true := by
  unfold computeReconciliationAction
  dsimp only
  rw [if_pos (show (((pass2 list target).2.2.length : Int)) > maxD from h)]
  dsimp only
  refine ⟨((pass2 list target).2.2.insertionSort gsNewerFirst).drop maxD.toNat, ?_, ?_, ?_, ?_⟩
  · rw [List.take_append_drop]
    exact List.perm_insertionSort gsNewerFirst _
  · have hlen : ((pass2 list target).2.2.insertionSort gsNewerFirst).length =
        (pass2 list target).2.2.length :=
      (List.perm_insertionSort gsNewerFirst _).length_eq
    rw [List.length_take, hlen]
    have ht : (maxD.toNat : Int) = maxD := Int.toNat_of_nonneg h0
    have : maxD.toNat ≤ (pass2 list target).2.2.length := by omega
    rw [min_eq_left this, ht]
  · intro x hx y hy
    have hs := List.sorted_insertionSort gsNewerFirst (pass2 list target).2.2
    have := hs.rel_of_mem_take_of_mem_drop hx hy
    unfold gsNewerFirst at this
    exact this
  · simp

/-- Witness for C5 at scenario S4: six Ready servers with timestamps 1–6,
target 1, deletion cap 3. -/
theorem deletes_truncated_to_newest_witness :
    ((0 : Int) ≤ 3 ∧ (3 : Int) < (((pass2 sixReadyList 1).2.2.length : Int))) ∧
    (∃ spared : List GameServer,
      ((computeReconciliationAction sixReadyList 1 64 3 5000).toDelete ++ spared).Perm
        (pass2 sixReadyList 1).2.2 ∧
      (((computeReconciliationAction sixReadyList 1 64 3 5000).toDelete.length : Int) = 3) ∧
      (∀ x ∈ (computeReconciliationAction sixReadyList 1 64 3 5000).toDelete,
        ∀ y ∈ spared,
          y.objectMeta.creationTimestamp ≤ x.objectMeta.creationTimestamp) ∧
      (computeReconciliationAction sixReadyList 1 64 3 5000).partialReconciliation = true) :=
  ⟨⟨by decide, by decide⟩,
    deletes_truncated_to_newest sixReadyList 1 64 3 5000 (by decide) (by decide)⟩

/-- Pass 2 folds identically over the list with deleting GameServers
filtered out. -/
theorem foldl_pass2Step_filter (t : Int) :
    ∀ (list : List GameServer) (acc : Int × Int × List GameServer),
      (list.filter (fun gs => gs.objectMeta.deletionTimestamp.isNone)).foldl (pass2Step t) acc =
        list.foldl (pass2Step t) acc := by
  intro list
  induction list with
  | nil => intro _; rfl
  | cons g gsRest ih =>
    intro acc
    by_cases hg : g.objectMeta.deletionTimestamp.isNone
    · simp only [List.filter_cons, hg, if_pos, List.foldl_cons]
      exact ih _
    · have hgf : g.objectMeta.deletionTimestamp.isNone = false := Bool.eq_false_iff.mpr hg
      have hskip := pass2Step_of_deleted t acc g hgf
      simp only [List.filter_cons, hgf, Bool.false_eq_true, if_false, List.foldl_cons, hskip]
      exact ih _

/-- Pass 1 counts the same allocated servers with deleting GameServers
filtered out (an allocated server never has a deletion timestamp). -/
theorem allocatedCount_filter (list : List GameServer) :
    allocatedCount (list.filter (fun gs => gs.objectMeta.deletionTimestamp.isNone)) =
      allocatedCount list := by
  unfold allocatedCount
  norm_cast
  induction list with
  | nil => rfl
  | cons g gsRest ih =>
    by_cases hg : g.objectMeta.deletionTimestamp.isNone
    · by_cases ha : isAllocated g <;>
        simp [-List.filter_filter, List.filter_cons, hg, ha, ih]
    · have hgf : g.objectMeta.deletionTimestamp.isNone = false := Bool.eq_false_iff.mpr hg
      have haf : isAllocated g = false := by simp [isAllocated, hgf]
      simp [-List.filter_filter, List.filter_cons, hgf, haf, ih]

/-- Both passes are invariant under removing deleting GameServers. -/
theorem pass2_filter (list : List GameServer) (t : Int) :
    pass2 (list.filter (fun gs => gs.objectMeta.deletionTimestamp.isNone)) t = pass2 list t := by
  unfold pass2
  rw [allocatedCount_filter, foldl_pass2Step_filter]

/-- C6.  GameServers carrying a deletion timestamp are inert: the whole
reconciliation action is unchanged when they are removed from the input (so
they contribute to neither `up` nor `podPending`), they never appear in
`toDelete`, and concretely scenario S5 (target 4, two deleting Unhealthy
plus one Ready, default caps) yields `toAdd = 3` and an empty `toDelete`. -/
theorem deleting_gameservers_inert :
    (∀ (list : List GameServer) (target maxC maxD maxP : Int),
      computeReconciliationAction list target maxC maxD maxP =
        computeReconciliationAction
          (list.filter (fun gs => gs.objectMeta.deletionTimestamp.isNone))
          target maxC maxD maxP) ∧
    (∀ (list : List GameServer) (target maxC maxD maxP : Int),
      (computeReconciliationAction list target maxC maxD maxP).toDelete.all
        (fun gs => gs.objectMeta.deletionTimestamp.isNone) = true) ∧
    (computeReconciliationAction scenarioS5List 4 64 64 5000).numServersToAdd = 3 ∧
    (computeReconciliationAction scenarioS5List 4 64 64 5000).toDelete = [] := by
  refine ⟨?_, ?_, by decide, by decide⟩
  · intro list target maxC maxD maxP
    unfold computeReconciliationAction
    rw [pass2_filter]
  · intro list target maxC maxD maxP
    rw [List.all_eq_true]
    intro gs hgs
    exact (pass2_toDelete_mem list target gs (mem_computeRA_toDelete hgs)).2

/-- C7 (evidence of the defect).  `ApplyDefaults` appends the controller
finalizer unconditionally, so a second application grows the finalizer list
instead of being a no-op: defaulting is *not* idempotent, contradicting the
stated property and the function's own "if they are not already populated"
contract. -/
theorem applyDefaults_not_idempotent :
    (ApplyDefaults simpleFixture).objectMeta.finalizers = [stableGroupName] ∧
    (ApplyDefaults (ApplyDefaults simpleFixture)).objectMeta.finalizers =
      [stableGroupName, stableGroupName] ∧
    ApplyDefaults (ApplyDefaults simpleFixture) ≠ ApplyDefaults simpleFixture := by
  decide

/-- `Validate` returns `len(causes) == 0` as its first component. -/
theorem validate_fst (gs : GameServer) : (Validate gs).1 = (Validate gs).2.isEmpty := rfl

/-- A scan that starts at any index finds a container when one with the
wanted name is present. -/
theorem findContainerAux_isSome (name : String) :
    ∀ (l : List CoreContainer) (k : Nat), (∃ c ∈ l, c.name = name) →
      (findContainerAux name k l).isSome = true := by
  intro l
  induction l with
  | nil => intro k h; simp at h
  | cons c0 cs ih =>
    intro k h
    unfold findContainerAux
    by_cases h0 : c0.name == name
    · simp [h0]
    · simp only [h0, Bool.false_eq_true, if_false]
      rcases h with ⟨c, hc, hname⟩
      rcases List.mem_cons.mp hc with rfl | hc
      · exact absurd (by simp [hname]) h0
      · exact ih (k + 1) ⟨c, hc, hname⟩

/-- What a successful scan returns: the index is in range (relative to the
start offset), it addresses the returned container, and the name matches. -/
theorem findContainerAux_spec (name : String) :
    ∀ (l : List CoreContainer) (k i : Nat) (c : CoreContainer),
      findContainerAux name k l = some (i, c) →
      k ≤ i ∧ i - k < l.length ∧ l[i - k]? = some c ∧ c.name = name := by
  intro l
  induction l with
  | nil => intro k i c h; simp [findContainerAux] at h
  | cons c0 cs ih =>
    intro k i c h
    unfold findContainerAux at h
    by_cases h0 : c0.name == name
    · simp only [h0, if_true, Option.some.injEq, Prod.mk.injEq] at h
      obtain ⟨rfl, rfl⟩ := h
      simp only [Nat.sub_self, List.length_cons]
      exact ⟨le_refl _, Nat.succ_pos _, by simp, by simpa using h0⟩
    · simp only [h0, Bool.false_eq_true, if_false] at h
      obtain ⟨h1, h2, h3, h4⟩ := ih (k + 1) i c h
      refine ⟨by omega, by simpa [List.length_cons] using by omega, ?_, h4⟩
      have hik : i - k = (i - (k + 1)) + 1 := by omega
      rw [hik]
      simpa using h3

/-- C8.  Validation rejects every dynamic port carrying a host port with a
cause naming `<port>.hostPort`, rejects an empty container name amid
multiple containers with a cause naming `container`, and accepts (with an
empty cause list) any GameServer with no such port, a resolvable container
name, and no missing-container-name situation. -/
theorem validate_complete (gs : GameServer) :
    (∀ p ∈ gs.spec.ports, p.portPolicy = Dynamic → p.hostPort > 0 →
      (Validate gs).1 = false ∧ ∃ c ∈ (Validate gs).2, c.field = p.name ++ ".hostPort") ∧
    (gs.spec.container = "" → gs.spec.template.spec.containers.length > 1 →
      (Validate gs).1 = false ∧ ∃ c ∈ (Validate gs).2, c.field = "container") ∧
    ((∀ p ∈ gs.spec.ports, ¬(p.portPolicy = Dynamic ∧ p.hostPort > 0)) →
      (∃ c ∈ gs.spec.template.spec.containers, c.name = gs.spec.container) →
      ¬(gs.spec.container = "" ∧ gs.spec.template.spec.containers.length > 1) →
      Validate gs = (true, [])) := by
  refine ⟨?_, ?_, ?_⟩
  · intro p hp hpol hhp
    have hc : (⟨CauseTypeFieldValueInvalid, p.name ++ ".hostPort",
        "HostPort cannot be specified with a Dynamic PortPolicy"⟩ : StatusCause) ∈
        (Validate gs).2 := by
      unfold Validate
      dsimp only
      refine List.mem_append.mpr (Or.inl (List.mem_append.mpr (Or.inr ?_)))
      refine List.mem_filterMap.mpr ⟨p, hp, ?_⟩
      rw [if_pos]
      simp [hpol, hhp]
    refine ⟨?_, ⟨_, hc, rfl⟩⟩
    rw [validate_fst, List.isEmpty_eq_false_iff_exists_mem]
    exact ⟨_, hc⟩
  · intro hcont hlen
    have hc : (⟨CauseTypeFieldValueInvalid, "container",
        "Container is required when using multiple containers in the pod template"⟩ :
        StatusCause) ∈ (Validate gs).2 := by
      unfold Validate
      dsimp only
      refine List.mem_append.mpr (Or.inl (List.mem_append.mpr (Or.inl ?_)))
      rw [if_pos]
      · exact List.mem_singleton.mpr rfl
      · simp [hcont, hlen]
    refine ⟨?_, ⟨_, hc, rfl⟩⟩
    rw [validate_fst, List.isEmpty_eq_false_iff_exists_mem]
    exact ⟨_, hc⟩
  · intro h1 h2 h3
    have e1 : (if gs.spec.container.length == 0 &&
        gs.spec.template.spec.containers.length > 1 then
          [(⟨CauseTypeFieldValueInvalid, "container",
            "Container is required when using multiple containers in the pod template"⟩ :
            StatusCause)]
        else []) = [] := by
      rw [if_neg]
      intro hcond
      simp only [Bool.and_eq_true, beq_iff_eq, decide_eq_true_eq] at hcond
      refine h3 ⟨?_, hcond.2⟩
      apply String.ext
      have hdata : gs.spec.container.data.length = 0 := hcond.1
      simpa using List.length_eq_zero.mp hdata
    have e2 : gs.spec.ports.filterMap (fun p =>
        if p.hostPort > 0 && p.portPolicy == Dynamic then
          some (⟨CauseTypeFieldValueInvalid, p.name ++ ".hostPort",
            "HostPort cannot be specified with a Dynamic PortPolicy"⟩ : StatusCause)
        else none) = [] := by
      rw [List.filterMap_eq_nil_iff]
      intro p hp
      rw [if_neg]
      intro hcond
      simp only [Bool.and_eq_true, beq_iff_eq, decide_eq_true_eq] at hcond
      exact h1 p hp ⟨hcond.2, hcond.1⟩
    have e3 : (FindGameServerContainer gs).isNone = false := by
      have := findContainerAux_isSome gs.spec.container gs.spec.template.spec.containers 0
        (by simpa using h2)
      unfold FindGameServerContainer
      simp only [Option.isNone_eq_false_iff]
      exact this
    unfold Validate
    dsimp only
    rw [e1, e2, e3]
    simp

/-- Witness for C8: the two-container fixture with an empty container name
and a dynamic port with host port 5001 is rejected with both causes; the
defaulted single-container fixture validates cleanly. -/
theorem validate_complete_witness :
    ((Validate invalidFixture).1 = false ∧
      ∃ c ∈ (Validate invalidFixture).2, c.field = "main" ++ ".hostPort") ∧
    ((Validate invalidFixture).1 = false ∧
      ∃ c ∈ (Validate invalidFixture).2, c.field = "container") ∧
    Validate (ApplyDefaults simpleFixture) = (true, []) :=
  ⟨(validate_complete invalidFixture).1
      { name := "main", portPolicy := Dynamic, containerPort := 0, hostPort := 5001,
        protocol := "" } (by decide) (by decide) (by decide),
   (validate_complete invalidFixture).2.1 (by decide) (by decide),
   (validate_complete (ApplyDefaults simpleFixture)).2.2 (by decide) (by decide) (by decide)⟩

/-- `podObjectMeta` leaves the pod spec untouched. -/
theorem podObjectMeta_spec_eq (gs : GameServer) (pod : Pod) :
    (podObjectMeta gs pod).1.spec = pod.spec := rfl

/-- `podScheduling` leaves the container list untouched. -/
theorem podScheduling_containers (gs : GameServer) (pod : Pod) :
    (podScheduling gs pod).spec.containers = pod.spec.containers := by
  unfold podScheduling
  split <;> rfl

/-- On the success path, the pod's containers are the template containers
with the game-server container (ports appended) substituted in place,
followed by the sidecars; no error is reported. -/
theorem pod_containers_eq (gs : GameServer) (sidecars : List CoreContainer) (i : Nat)
    (c : CoreContainer) (hic : FindGameServerContainer gs = some (i, c)) :
    (gs.Pod sidecars).1.spec.containers =
      (gs.spec.template.spec.containers.set i
        { c with ports := c.ports ++ gs.spec.ports.map (fun p =>
            { containerPort := p.containerPort, hostPort := p.hostPort,
              protocol := p.protocol }) }) ++ sidecars ∧
    (gs.Pod sidecars).2.2 = none := by
  unfold GameServer.Pod
  rw [hic]
  dsimp only
  constructor
  · rw [podScheduling_containers]
    dsimp only
    split <;> rfl
  · rfl

/-- C9.  When `spec.container` names an existing template container, the pod
has exactly the template containers plus the sidecars: same count, the
game-server container stays at its template index (same name there, all
other template indices unchanged), and the sidecars sit after all template
containers. -/
theorem pod_projection_containers (gs : GameServer) (sidecars : List CoreContainer)
    (h : ∃ c ∈ gs.spec.template.spec.containers, c.name = gs.spec.container) :
    (gs.Pod sidecars).2.2 = none ∧
    (gs.Pod sidecars).1.spec.containers.length =
      gs.spec.template.spec.containers.length + sidecars.length ∧
    (gs.Pod sidecars).1.spec.containers.drop gs.spec.template.spec.containers.length =
      sidecars ∧
    ∃ i c, FindGameServerContainer gs = some (i, c) ∧
      ((gs.Pod sidecars).1.spec.containers[i]?).map CoreContainer.name =
        some gs.spec.container ∧
      ∀ j, j < gs.spec.template.spec.containers.length → j ≠ i →
        (gs.Pod sidecars).1.spec.containers[j]? =
          gs.spec.template.spec.containers[j]? := by
  have hsome : (FindGameServerContainer gs).isSome = true :=
    findContainerAux_isSome gs.spec.container gs.spec.template.spec.containers 0
      (by simpa using h)
  obtain ⟨⟨i, c⟩, hic⟩ := Option.isSome_iff_exists.mp hsome
  obtain ⟨-, hlt, hget, hname⟩ := findContainerAux_spec gs.spec.container
    gs.spec.template.spec.containers 0 i c hic
  rw [Nat.sub_zero] at hlt hget
  obtain ⟨hcont, herr⟩ := pod_containers_eq gs sidecars i c hic
  have hsetlen : (gs.spec.template.spec.containers.set i
      { c with ports := c.ports ++ gs.spec.ports.map (fun p =>
          { containerPort := p.containerPort, hostPort := p.hostPort,
            protocol := p.protocol }) }).length =
      gs.spec.template.spec.containers.length := List.length_set ..
  refine ⟨herr, ?_, ?_, i, c, hic, ?_, ?_⟩
  · rw [hcont, List.length_append, hsetlen]
  · rw [hcont, ← hsetlen, List.drop_left]
  · rw [hcont, List.getElem?_append_left (by rw [hsetlen]; exact hlt)]
    rw [List.getElem?_set_self hlt]
    simp [hname]
  · intro j hj hji
    rw [hcont, List.getElem?_append_left (by rw [hsetlen]; exact hj)]
    rw [List.getElem?_set_ne (Ne.symm hji)]

/-- Witness for C9 at the pod fixture (game-server container second of
three, one sidecar). -/
theorem pod_projection_containers_witness :
    (podFixture.Pod [sidecarFixture]).2.2 = none ∧
    (podFixture.Pod [sidecarFixture]).1.spec.containers.length =
      podFixture.spec.template.spec.containers.length + [sidecarFixture].length ∧
    (podFixture.Pod [sidecarFixture]).1.spec.containers.drop
      podFixture.spec.template.spec.containers.length = [sidecarFixture] ∧
    ∃ i c, FindGameServerContainer podFixture = some (i, c) ∧
      ((podFixture.Pod [sidecarFixture]).1.spec.containers[i]?).map CoreContainer.name =
        some podFixture.spec.container ∧
      ∀ j, j < podFixture.spec.template.spec.containers.length → j ≠ i →
        (podFixture.Pod [sidecarFixture]).1.spec.containers[j]? =
          podFixture.spec.template.spec.containers[j]? :=
  pod_projection_containers podFixture [sidecarFixture] (by decide)

/-- C10.  `Pod()` is not side-effect free on its receiver: it returns the
GameServer with the sdk-version annotation inserted into its metadata
annotations (creating the map when absent), and — as the structure-update
equality shows — every other field exactly as before, on the error path as
well as on the success path. -/
theorem pod_mutates_only_sdk_annotation (gs : GameServer) (sidecars : List CoreContainer) :
    (gs.Pod sidecars).2.1 =
      { gs with objectMeta := { gs.objectMeta with
          annotations := mapInsert gs.objectMeta.annotations versionAnnKey pkgVersion } } := by
  unfold GameServer.Pod
  rcases FindGameServerContainer gs with _ | ⟨i, c⟩ <;> rfl

/-! ### Port allocator lemmas -/

theorem lookupPort_nil (p : Int) : lookupPort [] p = false := rfl

theorem lookupPort_cons (e : Int × Bool) (es : NodeMap) (p : Int) :
    lookupPort (e :: es) p = if e.1 == p then e.2 else lookupPort es p := by
  unfold lookupPort
  by_cases h : e.1 == p
  · rw [List.find?_cons_of_pos _ (by simpa using h)]
    simp [h]
  · rw [List.find?_cons_of_neg _ (by simpa using h)]
    simp [h]

theorem lookupPort_replace (n : NodeMap) (v : Int) (b : Bool) (p : Int) :
    lookupPort (n.map (fun e => if e.1 == v then (v, b) else e)) p =
      if p = v then (if n.any (fun e => e.1 == v) then b else false) else lookupPort n p := by
  induction n with
  | nil => simp [lookupPort_nil]
  | cons e es ih =>
    by_cases hev : e.1 == v
    · simp only [List.map_cons, hev, if_true, List.any_cons, Bool.true_or]
      rw [lookupPort_cons]
      by_cases hpv : p = v
      · subst hpv
        simp
      · have : (v == p) = false := by simpa using Ne.symm hpv
        rw [this]
        simp only [Bool.false_eq_true, if_false, ih, hpv, if_false]
        rw [lookupPort_cons]
        have he : (e.1 == p) = false := by
          have hev1 : e.1 = v := by simpa using hev
          simp [hev1, Ne.symm hpv]
        rw [he]
        simp
    · simp only [List.map_cons, hev, Bool.false_eq_true, if_false, List.any_cons, Bool.false_or]
      rw [lookupPort_cons, lookupPort_cons, ih]
      by_cases hep : e.1 == p
      · have hpv : ¬(p = v) := by
          intro hpv
          subst hpv
          exact absurd hep (by simpa using hev)
        simp [hep, hpv]
      · simp [hep]

theorem lookupPort_append_single (n : NodeMap) (v : Int) (b : Bool) (p : Int)
    (habs : n.any (fun e => e.1 == v) = false) :
    lookupPort (n ++ [(v, b)]) p = if p = v then b else lookupPort n p := by
  induction n with
  | nil =>
    simp only [List.nil_append, lookupPort_nil]
    rw [lookupPort_cons]
    by_cases hpv : p = v
    · simp [hpv]
    · have : (v == p) = false := by simpa using Ne.symm hpv
      simp [this, hpv, lookupPort_nil]
  | cons e es ih =>
    simp only [List.any_cons, Bool.or_eq_false_iff] at habs
    simp only [List.cons_append]
    rw [lookupPort_cons, lookupPort_cons]
    by_cases hep : e.1 == p
    · have hpv : ¬(p = v) := by
        intro hpv
        subst hpv
        exact absurd hep (by simp [habs.1])
      simp [hep, hpv]
    · simp only [hep, Bool.false_eq_true, if_false]
      exact ih habs.2

/-- Go map assignment, observed through lookup: the written key reads back
the written value, every other key is untouched. -/
theorem lookupPort_mapWrite (n : NodeMap) (v : Int) (b : Bool) (p : Int) :
    lookupPort (mapWrite n v b) p = if p = v then b else lookupPort n p := by
  unfold mapWrite
  by_cases hany : n.any (fun e => e.1 == v)
  · rw [if_pos hany, lookupPort_replace, hany]
    simp
  · have hany' : n.any (fun e => e.1 == v) = false := Bool.eq_false_iff.mpr hany
    rw [if_neg (by simp [hany']), lookupPort_append_single n v b p hany']

/-- The key list after a map assignment: unchanged when the key was present,
extended by the key otherwise. -/
theorem mapWrite_keys (n : NodeMap) (v : Int) (b : Bool) :
    (mapWrite n v b).map Prod.fst =
      if n.any (fun e => e.1 == v) then n.map Prod.fst else n.map Prod.fst ++ [v] := by
  unfold mapWrite
  by_cases hany : n.any (fun e => e.1 == v)
  · rw [if_pos hany, if_pos hany, List.map_map]
    apply List.map_congr_left
    intro e _
    by_cases hev : e.1 == v
    · have : e.1 = v := by simpa using hev
      simp [Function.comp, hev, this]
    · simp [Function.comp, hev]
  · rw [if_neg hany, if_neg hany, List.map_append]
    rfl

/-- Map assignment of an in-window key preserves node-map well-formedness. -/
theorem mapWF_mapWrite {minP maxP : Int} {n : NodeMap} (hwf : mapWF minP maxP n)
    {v : Int} (hv : minP ≤ v ∧ v ≤ maxP) (b : Bool) : mapWF minP maxP (mapWrite n v b) := by
  obtain ⟨hnd, hbound⟩ := hwf
  constructor
  · rw [mapWrite_keys]
    split
    · exact hnd
    · rw [List.nodup_append]
      refine ⟨hnd, List.nodup_singleton v, ?_⟩
      intro k hk hkv
      simp only [List.mem_singleton] at hkv
      obtain ⟨e, he, hfst⟩ := List.mem_map.mp hk
      have hany2 : n.any (fun e => e.1 == v) = true :=
        List.any_eq_true.mpr ⟨e, he, by simp [hfst, hkv]⟩
      simp_all
  · intro e he
    unfold mapWrite at he
    split at he
    · obtain ⟨e0, he0, hrep⟩ := List.mem_map.mp he
      by_cases h0 : e0.1 == v
      · rw [if_pos h0] at hrep
        subst hrep
        exact hv
      · rw [if_neg h0] at hrep
        subst hrep
        exact hbound e0 he0
    · rcases List.mem_append.mp he with h1 | h1
      · exact hbound e h1
      · simp only [List.mem_singleton] at h1
        subst h1
        exact hv

/-- In a node map with distinct keys, a present entry is what lookup finds. -/
theorem lookupPort_of_mem_nodup {n : NodeMap} (hnd : (n.map Prod.fst).Nodup)
    {v : Int} {b : Bool} (hmem : (v, b) ∈ n) : lookupPort n v = b := by
  induction n with
  | nil => simp at hmem
  | cons e es ih =>
    simp only [List.map_cons, List.nodup_cons] at hnd
    rw [lookupPort_cons]
    rcases List.mem_cons.mp hmem with rfl | hmem2
    · simp
    · have hev : (e.1 == v) = false := by
        rcases Bool.eq_false_or_eq_true (e.1 == v) with h | h
        · exfalso
          have he1 : e.1 = v := by simpa using h
          apply hnd.1
          rw [he1]
          exact List.mem_map.mpr ⟨(v, b), hmem2, rfl⟩
        · exact h
      rw [hev]
      simp only [Bool.false_eq_true, if_false]
      exact ih hnd.2 hmem2

/-- Replacing one list element, observed through a `Nat`-valued sum. -/
theorem sum_map_set (f : NodeMap → Nat) :
    ∀ (maps : List NodeMap) (i : Nat) (x : NodeMap), i < maps.length →
      (((maps.set i x).map f).sum + f (maps.getD i []) = (maps.map f).sum + f x) := by
  intro maps
  induction maps with
  | nil => intro i x h; simp at h
  | cons m ms ih =>
    intro i x h
    cases i with
    | zero => simp [List.getD_cons_zero]; omega
    | succ j =>
      simp only [List.set_cons_succ, List.map_cons, List.sum_cons, List.getD_cons_succ]
      have := ih j x (by simpa using h)
      omega

theorem countTaken_nil (p : Int) : countTaken [] p = 0 := rfl

theorem countTaken_cons (n : NodeMap) (ns : List NodeMap) (p : Int) :
    countTaken (n :: ns) p = (if lookupPort n p then 1 else 0) + countTaken ns p := by
  unfold countTaken
  simp

theorem getD_set_ne (maps : List NodeMap) (i j : Nat) (x : NodeMap) (h : i ≠ j) :
    (maps.set i x).getD j [] = maps.getD j [] := by
  rw [List.getD_eq_getElem?_getD, List.getD_eq_getElem?_getD, List.getElem?_set_ne h]

theorem getD_set_self (maps : List NodeMap) (i : Nat) (x : NodeMap) (h : i < maps.length) :
    (maps.set i x).getD i [] = x := by
  rw [List.getD_eq_getElem?_getD, List.getElem?_set_self h]
  rfl

theorem getD_mem (maps : List NodeMap) (i : Nat) (h : i < maps.length) :
    maps.getD i [] ∈ maps := by
  rw [List.getD_eq_getElem?_getD, List.getElem?_eq_getElem h]
  exact List.getElem_mem h

theorem getD_out_of_range (maps : List NodeMap) (i : Nat) (h : ¬ i < maps.length) :
    maps.getD i [] = [] := by
  rw [List.getD_eq_getElem?_getD, List.getElem?_eq_none (by omega)]
  rfl

/-- Marking one free slot raises the taken count of exactly that port by
one. -/
theorem countTaken_markAllocation (maps : List NodeMap) (a : Nat × Int) (p : Int)
    (hlt : a.1 < maps.length) (hfree : lookupPort (maps.getD a.1 []) a.2 = false) :
    countTaken (markAllocation maps a) p =
      countTaken maps p + (if a.2 = p then 1 else 0) := by
  have h := sum_map_set (fun n => if lookupPort n p then 1 else 0) maps a.1
    (mapWrite (maps.getD a.1 []) a.2 true) hlt
  dsimp only at h
  rw [lookupPort_mapWrite] at h
  unfold countTaken markAllocation
  by_cases hap : p = a.2
  · subst hap
    simp only [eq_self_iff_true, if_true, hfree, Bool.false_eq_true, if_false] at h
    rw [if_pos rfl]
    omega
  · rw [if_neg hap] at h
    rw [if_neg (fun hh => hap hh.symm)]
    omega

theorem markAllocation_length (maps : List NodeMap) (a : Nat × Int) :
    (markAllocation maps a).length = maps.length := by
  unfold markAllocation
  exact List.length_set ..

/-- Folding `markAllocation` over pairwise-distinct, currently-free slots
adds, for each port value, exactly its multiplicity among the slots. -/
theorem foldl_markAllocation_counts (allocs : List (Nat × Int)) :
    ∀ (maps : List NodeMap),
      (∀ a ∈ allocs, a.1 < maps.length ∧
        (maps.getD a.1 []).any (fun e => e.1 == a.2) = true ∧
        lookupPort (maps.getD a.1 []) a.2 = false) →
      allocs.Nodup →
      (allocs.foldl markAllocation maps).length = maps.length ∧
      ∀ p, countTaken (allocs.foldl markAllocation maps) p =
        countTaken maps p + (allocs.filter (fun a => a.2 == p)).length := by
  induction allocs with
  | nil => intro maps _ _; exact ⟨rfl, fun p => by simp⟩
  | cons a rest ih =>
    intro maps h hnd
    obtain ⟨ha1, ha2, ha3⟩ := h a (List.mem_cons_self a rest)
    have hlen : (markAllocation maps a).length = maps.length := markAllocation_length maps a
    have hrest : ∀ b ∈ rest, b.1 < (markAllocation maps a).length ∧
        ((markAllocation maps a).getD b.1 []).any (fun e => e.1 == b.2) = true ∧
        lookupPort ((markAllocation maps a).getD b.1 []) b.2 = false := by
      intro b hb
      obtain ⟨hb1, hb2, hb3⟩ := h b (List.mem_cons_of_mem a hb)
      have hba : b ≠ a := by
        intro he
        exact (List.nodup_cons.mp hnd).1 (he ▸ hb)
      rw [hlen]
      refine ⟨hb1, ?_, ?_⟩
      · by_cases hbi : b.1 = a.1
        · unfold markAllocation
          rw [hbi, getD_set_self _ _ _ ha1]
          rw [hbi] at hb2
          obtain ⟨e, he, hev⟩ := List.any_eq_true.mp hb2
          apply List.any_eq_true.mpr
          unfold mapWrite
          rw [if_pos ha2]
          refine ⟨if e.1 == a.2 then (a.2, true) else e, List.mem_map.mpr ⟨e, he, rfl⟩, ?_⟩
          by_cases hea : e.1 == a.2
          · have hea1 : e.1 = a.2 := by simpa using hea
            simp only [hea, if_true]
            rw [← hea1]
            exact hev
          · simp only [hea, Bool.false_eq_true, if_false]
            exact hev
        · unfold markAllocation
          rw [getD_set_ne _ _ _ _ (fun he => hbi he.symm)]
          exact hb2
      · by_cases hbi : b.1 = a.1
        · unfold markAllocation
          rw [hbi, getD_set_self _ _ _ ha1]
          have hport : ¬(b.2 = a.2) := by
            intro he
            exact hba (Prod.ext_iff.mpr ⟨hbi, he⟩)
          rw [lookupPort_mapWrite, if_neg hport]
          rw [hbi] at hb3
          exact hb3
        · unfold markAllocation
          rw [getD_set_ne _ _ _ _ (fun he => hbi he.symm)]
          exact hb3
    obtain ⟨hL, hC⟩ := ih (markAllocation maps a) hrest (List.nodup_cons.mp hnd).2
    refine ⟨by rw [List.foldl_cons, hL, hlen], fun p => ?_⟩
    rw [List.foldl_cons, hC p, countTaken_markAllocation maps a p ha1 ha3, List.filter_cons]
    by_cases hap : a.2 = p
    · simp only [hap, eq_self_iff_true, if_true, beq_self_eq_true, List.length_cons]
      omega
    · have hbp : (a.2 == p) = false := by simpa using hap
      rw [if_neg (show ¬((a.2 == p) = true) by simp [hbp]), if_neg hap]
      omega

/-- Folding `markAllocation` over in-window slots preserves node-map
well-formedness. -/
theorem foldl_markAllocation_mapWF {minP maxP : Int} (allocs : List (Nat × Int))
    (hwin : ∀ a ∈ allocs, minP ≤ a.2 ∧ a.2 ≤ maxP) :
    ∀ (maps : List NodeMap), (∀ n ∈ maps, mapWF minP maxP n) →
      ∀ n ∈ allocs.foldl markAllocation maps, mapWF minP maxP n := by
  induction allocs with
  | nil => intro maps h n hn; exact h n hn
  | cons a rest ih =>
    intro maps h n hn
    rw [List.foldl_cons] at hn
    refine ih (fun b hb => hwin b (List.mem_cons_of_mem a hb)) (markAllocation maps a) ?_ n hn
    intro m hm
    unfold markAllocation at hm
    rcases List.mem_or_eq_of_mem_set hm with hm1 | hm1
    · exact h m hm1
    · subst hm1
      by_cases hi : a.1 < maps.length
      · exact mapWF_mapWrite (h _ (getD_mem maps a.1 hi)) (hwin a (List.mem_cons_self a rest)) true
      · rw [getD_out_of_range maps a.1 hi]
        exact mapWF_mapWrite ⟨by simp, by simp⟩ (hwin a (List.mem_cons_self a rest)) true

/-- What it means to be enumerated among the open ports: the node index is
in range (relative to the offset) and the node's map holds the port free. -/
theorem mem_allOpenPortsFrom {a : Nat × Int} :
    ∀ (ms : List NodeMap) (k : Nat), a ∈ allOpenPortsFrom k ms →
      k ≤ a.1 ∧ a.1 - k < ms.length ∧ (a.2, false) ∈ ms.getD (a.1 - k) [] := by
  intro ms
  induction ms with
  | nil => intro k h; simp [allOpenPortsFrom] at h
  | cons n ns ih =>
    intro k h
    unfold allOpenPortsFrom at h
    rcases List.mem_append.mp h with h1 | h1
    · obtain ⟨p, hp, hkp⟩ := List.mem_map.mp h1
      obtain ⟨e, he, hfst⟩ := List.mem_map.mp (by
        unfold nodeOpenPorts at hp
        exact hp)
      have hef := List.mem_filter.mp he
      have he2 : e.2 = false := by simpa using hef.2
      have ha1 : a.1 = k := by rw [← hkp]
      have ha2 : a.2 = p := by rw [← hkp]
      refine ⟨by omega, ?_, ?_⟩
      · simp only [ha1, Nat.sub_self, List.length_cons]
        omega
      · simp only [ha1, Nat.sub_self, List.getD_cons_zero]
        have : e = (a.2, false) := by
          rw [Prod.ext_iff]
          exact ⟨by rw [hfst, ha2], he2⟩
        rw [← this]
        exact hef.1
    · obtain ⟨h1k, h2, h3⟩ := ih (k + 1) h1
      refine ⟨by omega, ?_, ?_⟩
      · simp only [List.length_cons]
        omega
      · have hik : a.1 - k = (a.1 - (k + 1)) + 1 := by omega
        rw [hik, List.getD_cons_succ]
        exact h3

/-- The open-port enumeration carries no duplicate (node, port) slot. -/
theorem nodup_allOpenPortsFrom (ms : List NodeMap)
    (hnd : ∀ n ∈ ms, (n.map Prod.fst).Nodup) :
    ∀ k, (allOpenPortsFrom k ms).Nodup := by
  induction ms with
  | nil => intro k; simp [allOpenPortsFrom]
  | cons n ns ih =>
    intro k
    unfold allOpenPortsFrom
    rw [List.nodup_append]
    refine ⟨?_, ih (fun m hm => hnd m (List.mem_cons_of_mem n hm)) (k + 1), ?_⟩
    · have hop : (nodeOpenPorts n).Nodup := by
        unfold nodeOpenPorts
        have hsub : List.Sublist ((n.filter (fun e => !e.2)).map Prod.fst) (n.map Prod.fst) :=
          (List.filter_sublist n).map Prod.fst
        exact (hnd n (List.mem_cons_self n ns)).sublist hsub
      exact hop.map (fun p q hpq => by simpa using congrArg Prod.snd hpq)
    · intro a ha hb
      obtain ⟨p, _, hkp⟩ := List.mem_map.mp ha
      have h1 := (mem_allOpenPortsFrom ns (k + 1) hb).1
      rw [← hkp] at h1
      simp at h1

/-- Every port in a freshly created node map reads free. -/
theorem lookupPort_all_false (l : List Int) (p : Int) :
    lookupPort (l.map (fun q => (q, false))) p = false := by
  induction l with
  | nil => rfl
  | cons q qs ih =>
    simp only [List.map_cons]
    rw [lookupPort_cons]
    split
    · rfl
    · exact ih

theorem mem_intRange {lo hi p : Int} : p ∈ intRange lo hi ↔ lo ≤ p ∧ p ≤ hi := by
  unfold intRange
  constructor
  · intro h
    obtain ⟨k, hk, hkp⟩ := List.mem_map.mp h
    have := List.mem_range.mp hk
    omega
  · intro h
    refine List.mem_map.mpr ⟨(p - lo).toNat, List.mem_range.mpr (by omega), by omega⟩

theorem intRange_nodup (lo hi : Int) : (intRange lo hi).Nodup := by
  unfold intRange
  exact (List.nodup_range _).map (fun a b h => by omega)

theorem newPortAllocation_WF (minP maxP : Int) : mapWF minP maxP (newPortAllocation minP maxP) := by
  unfold newPortAllocation
  constructor
  · rw [List.map_map]
    have : (Prod.fst ∘ fun p => ((p : Int), false)) = id := by
      funext p
      rfl
    rw [this, List.map_id]
    exact intRange_nodup ..
  · intro e he
    obtain ⟨q, hq, hqe⟩ := List.mem_map.mp he
    have := mem_intRange.mp hq
    rw [← hqe]
    exact this

/-- Appending a fresh node map changes no taken count. -/
theorem countTaken_append_new (maps : List NodeMap) (minP maxP p : Int) :
    countTaken (maps ++ [newPortAllocation minP maxP]) p = countTaken maps p := by
  unfold countTaken
  rw [List.map_append, List.sum_append]
  simp [newPortAllocation, lookupPort_all_false]

theorem allOpenPortsFrom_append (n : NodeMap) :
    ∀ (ms : List NodeMap) (k : Nat),
      allOpenPortsFrom k (ms ++ [n]) =
        allOpenPortsFrom k ms ++ (nodeOpenPorts n).map (fun p => (k + ms.length, p)) := by
  intro ms
  induction ms with
  | nil => intro k; simp [allOpenPortsFrom]
  | cons m ms2 ih =>
    intro k
    simp only [List.cons_append]
    unfold allOpenPortsFrom
    rw [ih (k + 1), ← List.append_assoc]
    have : k + 1 + ms2.length = k + (m :: ms2).length := by
      simp only [List.length_cons]
      omega
    rw [this]

theorem nodeOpenPorts_new (minP maxP : Int) :
    nodeOpenPorts (newPortAllocation minP maxP) = intRange minP maxP := by
  unfold nodeOpenPorts newPortAllocation
  rw [List.filter_map]
  have : (List.filter ((fun e => !e.2) ∘ fun q => ((q : Int), false)) (intRange minP maxP)) =
      intRange minP maxP := by
    apply List.filter_eq_self.mpr
    intro q _
    rfl
  rw [this, List.map_map]
  have h2 : (Prod.fst ∘ fun q => ((q : Int), false)) = id := by
    funext q
    rfl
  rw [h2, List.map_id]

/-- Appending a fresh node map adds a full window of free ports. -/
theorem freeCount_append_new (maps : List NodeMap) (minP maxP : Int) :
    freeCount (maps ++ [newPortAllocation minP maxP]) =
      freeCount maps + (maxP + 1 - minP).toNat := by
  unfold freeCount allOpenPorts
  rw [allOpenPortsFrom_append, List.length_append, List.length_map, nodeOpenPorts_new]
  unfold intRange
  rw [List.length_map, List.length_range]

theorem findOpenPorts_sublist (pa : PortAllocator) (amount : Nat) :
    List.Sublist (findOpenPorts pa amount) (allOpenPorts pa.portAllocations) := by
  unfold findOpenPorts
  split
  · exact List.Sublist.refl _
  · exact List.take_sublist ..

theorem findOpenPorts_length (pa : PortAllocator) (amount : Nat) (h : 1 ≤ amount) :
    (findOpenPorts pa amount).length = min amount (freeCount pa.portAllocations) := by
  unfold findOpenPorts freeCount
  rw [if_neg (by omega)]
  exact List.length_take ..

/-- Freeing one port value leaves every other port's taken count alone. -/
theorem countTaken_setFree_ne (v p : Int) (hpv : p ≠ v) :
    ∀ maps : List NodeMap, countTaken (setPortAllocation v maps false) p = countTaken maps p := by
  intro maps
  induction maps with
  | nil => rfl
  | cons n ns ih =>
    unfold setPortAllocation
    split
    · rw [countTaken_cons, countTaken_cons, lookupPort_mapWrite, if_neg hpv]
    · rw [countTaken_cons, countTaken_cons, ih]

/-- Freeing a port value that is taken somewhere lowers its count by one. -/
theorem countTaken_setFree_self (v : Int) :
    ∀ maps : List NodeMap, 1 ≤ countTaken maps v →
      countTaken (setPortAllocation v maps false) v + 1 = countTaken maps v := by
  intro maps
  induction maps with
  | nil => intro h; simp [countTaken_nil] at h
  | cons n ns ih =>
    intro h
    unfold setPortAllocation
    split
    · rename_i hcond
      have ht : lookupPort n v = true := by
        rcases Bool.eq_false_or_eq_true (lookupPort n v) with h1 | h1
        · exact h1
        · simp [h1] at hcond
      rw [countTaken_cons, countTaken_cons, lookupPort_mapWrite, if_pos rfl, ht]
      simp only [Bool.false_eq_true, if_false, if_true]
      omega
    · rename_i hcond
      have hf : lookupPort n v = false := by
        rcases Bool.eq_false_or_eq_true (lookupPort n v) with h1 | h1
        · exfalso
          apply hcond
          simp [h1]
        · exact h1
      rw [countTaken_cons, countTaken_cons, hf]
      simp only [Bool.false_eq_true, if_false]
      rw [countTaken_cons, hf] at h
      simp only [Bool.false_eq_true, if_false] at h
      have := ih (by omega)
      omega

/-- `setPortAllocation` (with an in-window port) preserves per-node
well-formedness. -/
theorem setPortAllocation_mapWF {minP maxP v : Int} (hv : minP ≤ v ∧ v ≤ maxP) (b : Bool) :
    ∀ maps : List NodeMap, (∀ n ∈ maps, mapWF minP maxP n) →
      ∀ n ∈ setPortAllocation v maps b, mapWF minP maxP n := by
  intro maps
  induction maps with
  | nil => intro h n hn; simp [setPortAllocation] at hn
  | cons m ms ih =>
    intro h n hn
    unfold setPortAllocation at hn
    split at hn
    · rcases List.mem_cons.mp hn with rfl | hn2
      · exact mapWF_mapWrite (h m (List.mem_cons_self m ms)) hv b
      · exact h n (List.mem_cons_of_mem m hn2)
    · rcases List.mem_cons.mp hn with rfl | hn2
      · exact h n (List.mem_cons_self n ms)
      · exact ih (fun x hx => h x (List.mem_cons_of_mem m hx)) n hn2

/-- The DeAllocate fold: each in-window port of the GameServer gives back
exactly one taken mark, provided the taken counts cover the multiset of
in-window ports being freed. -/
theorem freeFold_counts (minP maxP : Int) :
    ∀ (ports : List GameServerPort) (maps : List NodeMap),
      (∀ p, ((ports.filter (fun q =>
          !(q.hostPort < minP || q.hostPort > maxP) && q.hostPort == p)).length ≤
        countTaken maps p)) →
      ∀ p, countTaken (ports.foldl (fun maps q =>
          if q.hostPort < minP || q.hostPort > maxP then maps
          else setPortAllocation q.hostPort maps false) maps) p
        + (ports.filter (fun q =>
            !(q.hostPort < minP || q.hostPort > maxP) && q.hostPort == p)).length
        = countTaken maps p := by
  intro ports
  induction ports with
  | nil => intro maps _ p; simp
  | cons q rest ih =>
    intro maps hle p
    rw [List.foldl_cons]
    by_cases hout : q.hostPort < minP ∨ q.hostPort > maxP
    · have hcond : (q.hostPort < minP || q.hostPort > maxP) = true := by
        rcases hout with h1 | h1 <;> simp [h1]
      rw [if_pos hcond]
      have hfe : ∀ r, (List.filter (fun q2 =>
          !(q2.hostPort < minP || q2.hostPort > maxP) && q2.hostPort == r) (q :: rest)) =
          (List.filter (fun q2 =>
          !(q2.hostPort < minP || q2.hostPort > maxP) && q2.hostPort == r) rest) := by
        intro r
        rw [List.filter_cons, if_neg (by simp [hcond])]
      rw [hfe p]
      exact ih maps (fun r => by rw [← hfe r]; exact hle r) p
    · have hcond : (q.hostPort < minP || q.hostPort > maxP) = false := by
        push_neg at hout
        simp only [Bool.or_eq_false_iff, decide_eq_false_iff_not]
        constructor
        · omega
        · omega
      rw [if_neg (by simp [hcond])]
      set maps2 := setPortAllocation q.hostPort maps false with hmaps2
      have hcondpos : ∀ r, q.hostPort = r →
          ((!(q.hostPort < minP || q.hostPort > maxP) && q.hostPort == r) = true) := by
        intro r hr
        rw [hcond]
        simp [hr]
      have hfree : countTaken maps2 q.hostPort + 1 = countTaken maps q.hostPort := by
        apply countTaken_setFree_self
        have := hle q.hostPort
        rw [List.filter_cons, if_pos (hcondpos _ rfl)] at this
        simp only [List.length_cons] at this
        omega
      have hle2 : ∀ r, ((rest.filter (fun q2 =>
          !(q2.hostPort < minP || q2.hostPort > maxP) && q2.hostPort == r)).length ≤
          countTaken maps2 r) := by
        intro r
        by_cases hqr : q.hostPort = r
        · have := hle r
          rw [List.filter_cons, if_pos (hcondpos _ hqr)] at this
          simp only [List.length_cons] at this
          rw [← hqr] at this ⊢
          omega
        · rw [hmaps2, countTaken_setFree_ne _ _ (fun hh => hqr hh.symm)]
          have := hle r
          rw [List.filter_cons, if_neg (by simp [hqr])] at this
          exact le_trans (le_refl _) this
      have hrec := ih maps2 hle2 p
      by_cases hqp : q.hostPort = p
      · rw [List.filter_cons, if_pos (hcondpos _ hqp)]
        simp only [List.length_cons]
        rw [← hqp] at hrec ⊢
        omega
      · rw [List.filter_cons, if_neg (by simp [hqp])]
        rw [hmaps2] at hrec
        rw [countTaken_setFree_ne _ _ (fun hh => hqp hh.symm)] at hrec
        exact hrec

/-- The DeAllocate fold preserves node-map well-formedness. -/
theorem freeFold_mapWF (minP maxP : Int) :
    ∀ (ports : List GameServerPort) (maps : List NodeMap),
      (∀ n ∈ maps, mapWF minP maxP n) →
      ∀ n ∈ ports.foldl (fun maps q =>
          if q.hostPort < minP || q.hostPort > maxP then maps
          else setPortAllocation q.hostPort maps false) maps,
        mapWF minP maxP n := by
  intro ports
  induction ports with
  | nil => intro maps h n hn; exact h n hn
  | cons q rest ih =>
    intro maps h n hn
    rw [List.foldl_cons] at hn
    by_cases hout : (q.hostPort < minP || q.hostPort > maxP) = true
    · rw [if_pos hout] at hn
      exact ih maps h n hn
    · rw [if_neg hout] at hn
      refine ih _ ?_ n hn
      apply setPortAllocation_mapWF _ false maps h
      simp only [Bool.or_eq_true, not_or, decide_eq_true_eq] at hout
      omega

/-- Assigning the collected allocations writes exactly their port values
(with multiplicity) into the dynamic ports, in order. -/
theorem assignPorts_filter_count (p : Int) :
    ∀ (ports : List GameServerPort) (allocs : List (Nat × Int)),
      allocs.length = (ports.filter (fun q => q.portPolicy == Dynamic)).length →
      ((assignPorts ports allocs).filter
        (fun q => q.portPolicy == Dynamic && q.hostPort == p)).length =
      (allocs.filter (fun a => a.2 == p)).length := by
  intro ports
  induction ports with
  | nil =>
    intro allocs h
    simp only [List.filter_nil, List.length_nil] at h
    rw [List.length_eq_zero.mp h]
    rfl
  | cons q qs ih =>
    intro allocs h
    by_cases hq : (q.portPolicy == Dynamic) = true
    · rw [List.filter_cons, if_pos (by simp [hq])] at h
      simp only [List.length_cons] at h
      unfold assignPorts
      rw [if_pos hq]
      cases allocs with
      | nil => simp at h
      | cons a rest =>
        simp only [List.length_cons] at h
        have hres : rest.length = (qs.filter (fun q2 => q2.portPolicy == Dynamic)).length := by
          omega
        rw [List.filter_cons, List.filter_cons]
        have hpol : ({ q with hostPort := a.2 } : GameServerPort).portPolicy = q.portPolicy := rfl
        by_cases hap : (a.2 == p) = true
        · rw [if_pos (by simp [hpol, hq, hap]), if_pos hap]
          simp only [List.length_cons, ih rest hres]
        · rw [if_neg (by simp [hpol, hq, hap]), if_neg (by simp [hap])]
          exact ih rest hres
    · rw [List.filter_cons, if_neg (by simp [hq])] at h
      unfold assignPorts
      rw [if_neg hq, List.filter_cons, if_neg (by simp [hq])]
      exact ih allocs h

/-- Every port after assignment: non-dynamic ports are original ports of the
GameServer; dynamic ports carry an in-window host port. -/
theorem assignPorts_cases {minP maxP : Int} :
    ∀ (ports : List GameServerPort) (allocs : List (Nat × Int)),
      (∀ a ∈ allocs, minP ≤ a.2 ∧ a.2 ≤ maxP) →
      allocs.length = (ports.filter (fun q => q.portPolicy == Dynamic)).length →
      ∀ q2 ∈ assignPorts ports allocs,
        (q2.portPolicy ≠ Dynamic → q2 ∈ ports) ∧
        (q2.portPolicy = Dynamic → minP ≤ q2.hostPort ∧ q2.hostPort ≤ maxP) := by
  intro ports
  induction ports with
  | nil => intro allocs _ _ q2 hq2; simp [assignPorts] at hq2
  | cons q qs ih =>
    intro allocs hwin h q2 hq2
    by_cases hq : (q.portPolicy == Dynamic) = true
    · rw [List.filter_cons, if_pos (by simp [hq])] at h
      unfold assignPorts at hq2
      rw [if_pos hq] at hq2
      cases allocs with
      | nil => simp at h
      | cons a rest =>
        simp only [List.length_cons] at h
        have hres : rest.length = (qs.filter (fun q3 => q3.portPolicy == Dynamic)).length := by
          omega
        rcases List.mem_cons.mp hq2 with rfl | hq3
        · constructor
          · intro hne
            exact absurd (by simpa using hq) hne
          · intro _
            exact hwin a (List.mem_cons_self a rest)
        · have := ih rest (fun b hb => hwin b (List.mem_cons_of_mem a hb)) hres q2 hq3
          exact ⟨fun hne => List.mem_cons_of_mem q (this.1 hne),
                 fun hdy => this.2 hdy⟩
    · rw [List.filter_cons, if_neg (by simp [hq])] at h
      unfold assignPorts at hq2
      rw [if_neg hq] at hq2
      rcases List.mem_cons.mp hq2 with rfl | hq3
      · constructor
        · intro _
          exact List.mem_cons_self q2 qs
        · intro hdy
          exact absurd (by simp [hdy]) hq
      · have := ih allocs hwin h q2 hq3
        exact ⟨fun hne => List.mem_cons_of_mem q (this.1 hne), fun hdy => this.2 hdy⟩

theorem contains_iff_mem {l : List String} {u : String} : l.contains u = true ↔ u ∈ l := by
  simp

theorem contains_false_iff {l : List String} {u : String} : l.contains u = false ↔ u ∉ l := by
  constructor
  · intro h hm
    have h2 := contains_iff_mem.mpr hm
    rw [h] at h2
    exact Bool.false_ne_true h2
  · intro h
    rcases Bool.eq_false_or_eq_true (l.contains u) with h1 | h1
    · exact absurd (contains_iff_mem.mp h1) h
    · exact h1

theorem registryInsert_nodup {reg : List String} {u : String} (h : reg.Nodup)
    (hu : reg.contains u = false) : (registryInsert reg u).Nodup := by
  unfold registryInsert
  rw [hu]
  simp only [Bool.false_eq_true, if_false, List.nodup_cons]
  exact ⟨contains_false_iff.mp hu, h⟩

theorem contains_eq_of_mem_iff {l1 l2 : List String} {v : String} (h : v ∈ l1 ↔ v ∈ l2) :
    l1.contains v = l2.contains v := by
  rcases Bool.eq_false_or_eq_true (l1.contains v) with h1 | h1
  · rw [h1]
    exact (contains_iff_mem.mpr (h.mp (contains_iff_mem.mp h1))).symm
  · rw [h1]
    exact (contains_false_iff.mpr (fun hm => (contains_false_iff.mp h1) (h.mpr hm))).symm

theorem registryInsert_contains_ne {reg : List String} {u v : String}
    (hu : reg.contains u = false) (hne : v ≠ u) :
    (registryInsert reg u).contains v = reg.contains v := by
  unfold registryInsert
  rw [hu]
  simp only [Bool.false_eq_true, if_false]
  apply contains_eq_of_mem_iff
  simp [List.mem_cons, hne]

theorem registryInsert_contains_self {reg : List String} {u : String}
    (hu : reg.contains u = false) : (registryInsert reg u).contains u = true := by
  unfold registryInsert
  rw [hu]
  simp only [Bool.false_eq_true, if_false]
  exact contains_iff_mem.mpr (List.mem_cons_self u reg)

theorem erase_contains_ne {reg : List String} {u v : String} (hne : v ≠ u) :
    (reg.erase u).contains v = reg.contains v :=
  contains_eq_of_mem_iff (List.mem_erase_of_ne hne)

theorem erase_contains_self {reg : List String} {u : String} (hreg : reg.Nodup) :
    (reg.erase u).contains u = false :=
  contains_false_iff.mpr (fun hm => absurd ((hreg.mem_erase_iff).mp hm).1 (by simp))

/-- Registering a fresh UID (writing back the allocated GameServer) adds
exactly its dynamic-port multiplicity to the holder sum. -/
theorem sum_holder_insert (p : Int) (u : String) (gsNew : GameServer) (reg : List String)
    (hu : reg.contains u = false) (hnew : gsNew.objectMeta.uid = u) :
    ∀ pop : List GameServer, (pop.map (fun g => g.objectMeta.uid)).Nodup →
      (findGS pop u).isSome = true →
      ((pop.map (fun g => if g.objectMeta.uid == u then gsNew else g)).map
        (fun g => if (registryInsert reg u).contains g.objectMeta.uid then
          dynPortCount g p else 0)).sum
      = (pop.map (fun g =>
          if reg.contains g.objectMeta.uid then dynPortCount g p else 0)).sum
        + dynPortCount gsNew p := by
  intro pop
  induction pop with
  | nil => intro _ hfind; simp [findGS] at hfind
  | cons g rest ih =>
    intro hnd hfind
    simp only [List.map_cons, List.nodup_cons] at hnd
    by_cases hgu : (g.objectMeta.uid == u) = true
    · have hgu1 : g.objectMeta.uid = u := by simpa using hgu
      have hrestid : rest.map (fun g2 => if g2.objectMeta.uid == u then gsNew else g2) = rest := by
        have := List.map_congr_left (l := rest)
          (f := fun g2 => if g2.objectMeta.uid == u then gsNew else g2) (g := id) ?_
        · simpa using this
        · intro g2 hg2
          have : ¬(g2.objectMeta.uid = u) := by
            intro he
            apply hnd.1
            rw [hgu1, ← he]
            exact List.mem_map.mpr ⟨g2, hg2, rfl⟩
          simp [this]
      have hrestsum : (rest.map (fun g2 =>
          if (registryInsert reg u).contains g2.objectMeta.uid then
            dynPortCount g2 p else 0)) = (rest.map (fun g2 =>
          if reg.contains g2.objectMeta.uid then dynPortCount g2 p else 0)) := by
        apply List.map_congr_left
        intro g2 hg2
        have hne : g2.objectMeta.uid ≠ u := by
          intro he
          apply hnd.1
          rw [hgu1, ← he]
          exact List.mem_map.mpr ⟨g2, hg2, rfl⟩
        rw [registryInsert_contains_ne hu hne]
      simp only [List.map_cons, List.sum_cons, hgu, if_true, hrestid, hrestsum]
      rw [hnew, registryInsert_contains_self hu, if_pos rfl]
      rw [hgu1, hu]
      simp only [Bool.false_eq_true, if_false]
      omega
    · have hgu1 : g.objectMeta.uid ≠ u := by simpa using hgu
      have hfind2 : (findGS rest u).isSome = true := by
        unfold findGS at hfind ⊢
        rw [List.find?_cons_of_neg _ (by simpa using hgu)] at hfind
        exact hfind
      simp only [List.map_cons, List.sum_cons, hgu, Bool.false_eq_true, if_false]
      rw [registryInsert_contains_ne hu hgu1, ih hnd.2 hfind2]
      omega

/-- Dropping a registered UID removes exactly the de-allocated GameServer's
dynamic-port multiplicity from the holder sum. -/
theorem sum_holder_erase (p : Int) (u : String) (reg : List String)
    (hreg : reg.Nodup) (hu : reg.contains u = true) :
    ∀ pop : List GameServer, (pop.map (fun g => g.objectMeta.uid)).Nodup →
      ∀ gs, findGS pop u = some gs →
      (pop.map (fun g => if (reg.erase u).contains g.objectMeta.uid then
          dynPortCount g p else 0)).sum + dynPortCount gs p
      = (pop.map (fun g =>
          if reg.contains g.objectMeta.uid then dynPortCount g p else 0)).sum := by
  intro pop
  induction pop with
  | nil => intro _ gs hfind; simp [findGS] at hfind
  | cons g rest ih =>
    intro hnd gs hfind
    simp only [List.map_cons, List.nodup_cons] at hnd
    by_cases hgu : (g.objectMeta.uid == u) = true
    · have hgu1 : g.objectMeta.uid = u := by simpa using hgu
      have hgs : gs = g := by
        unfold findGS at hfind
        rw [List.find?_cons_of_pos _ (by simpa using hgu)] at hfind
        exact (Option.some.injEq ..).mp hfind.symm
      have hrestsum : (rest.map (fun g2 =>
          if (reg.erase u).contains g2.objectMeta.uid then dynPortCount g2 p else 0)) =
          (rest.map (fun g2 =>
          if reg.contains g2.objectMeta.uid then dynPortCount g2 p else 0)) := by
        apply List.map_congr_left
        intro g2 hg2
        have hne : g2.objectMeta.uid ≠ u := by
          intro he
          apply hnd.1
          rw [hgu1, ← he]
          exact List.mem_map.mpr ⟨g2, hg2, rfl⟩
        rw [erase_contains_ne hne]
      simp only [List.map_cons, List.sum_cons, hrestsum]
      rw [hgu1, erase_contains_self hreg, hu]
      simp only [Bool.false_eq_true, if_false, if_true, hgs]
      omega
    · have hgu1 : g.objectMeta.uid ≠ u := by simpa using hgu
      have hfind2 : findGS rest u = some gs := by
        unfold findGS at hfind ⊢
        rw [List.find?_cons_of_neg _ (by simpa using hgu)] at hfind
        exact hfind
      simp only [List.map_cons, List.sum_cons]
      rw [erase_contains_ne hgu1]
      have := ih hnd.2 gs hfind2
      omega

/-- The per-allocation facts extracted from the enumeration of open ports:
valid node index, key present and currently free, port inside the window. -/
theorem findOpenPorts_facts (pa : PortAllocator) (amount : Nat)
    (hwf : ∀ n ∈ pa.portAllocations, mapWF pa.minPort pa.maxPort n) :
    ∀ a ∈ findOpenPorts pa amount,
      a.1 < pa.portAllocations.length ∧
      ((pa.portAllocations.getD a.1 []).any (fun e => e.1 == a.2) = true) ∧
      lookupPort (pa.portAllocations.getD a.1 []) a.2 = false ∧
      (pa.minPort ≤ a.2 ∧ a.2 ≤ pa.maxPort) := by
  intro a ha
  have hmem : a ∈ allOpenPorts pa.portAllocations :=
    (findOpenPorts_sublist pa amount).subset ha
  obtain ⟨-, hlt, hentry⟩ := mem_allOpenPortsFrom pa.portAllocations 0 hmem
  rw [Nat.sub_zero] at hlt hentry
  have hnode := hwf _ (getD_mem pa.portAllocations a.1 hlt)
  refine ⟨hlt, ?_, ?_, ?_⟩
  · exact List.any_eq_true.mpr ⟨(a.2, false), hentry, by simp⟩
  · exact lookupPort_of_mem_nodup hnode.1 hentry
  · exact hnode.2 (a.2, false) hentry

theorem findOpenPorts_nodup (pa : PortAllocator) (amount : Nat)
    (hwf : ∀ n ∈ pa.portAllocations, mapWF pa.minPort pa.maxPort n) :
    (findOpenPorts pa amount).Nodup :=
  (nodup_allOpenPortsFrom pa.portAllocations (fun n hn => (hwf n hn).1) 0).sublist
    (findOpenPorts_sublist pa amount)

/-- The success of `allocateFuel` preserves the system invariant, for a
GameServer of the population not yet in the registry. -/
theorem allocateFuel_preserves_inv :
    ∀ (fuel : Nat) (pa : PortAllocator) (pop : List GameServer) (gs : GameServer)
      (pa2 : PortAllocator) (gsNew : GameServer),
      SysInv ⟨pa, pop⟩ →
      gs ∈ pop →
      pa.gameServerRegistry.contains gs.objectMeta.uid = false →
      (findGS pop gs.objectMeta.uid).isSome = true →
      allocateFuel fuel pa gs = some (pa2, gsNew) →
      SysInv ⟨pa2, pop.map (fun g =>
        if g.objectMeta.uid == gs.objectMeta.uid then gsNew else g)⟩ := by
  intro fuel
  induction fuel with
  | zero =>
    intro pa pop gs pa2 gsNew _ _ _ _ h
    simp [allocateFuel] at h
  | succ n ih =>
    intro pa pop gs pa2 gsNew hinv hmem hfresh hfind halloc
    unfold allocateFuel at halloc
    dsimp only at halloc
    split at halloc
    · rename_i hguard
      rw [Option.some.injEq] at halloc
      obtain ⟨rfl, rfl⟩ := Prod.mk.injEq .. |>.mp halloc
      have hfacts := findOpenPorts_facts pa (gs.CountPorts Dynamic) hinv.mapsWF
      have hnodup := findOpenPorts_nodup pa (gs.CountPorts Dynamic) hinv.mapsWF
      have hmarks := foldl_markAllocation_counts (findOpenPorts pa (gs.CountPorts Dynamic))
        pa.portAllocations (fun a ha => ⟨(hfacts a ha).1, (hfacts a ha).2.1, (hfacts a ha).2.2.1⟩)
        hnodup
      have hguard2 : (findOpenPorts pa (gs.CountPorts Dynamic)).length =
          (gs.spec.ports.filter (fun q => q.portPolicy == Dynamic)).length := hguard
      constructor
      · intro p
        dsimp only
        rw [hmarks.2 p]
        unfold holderMultiplicity
        dsimp only
        rw [sum_holder_insert p gs.objectMeta.uid
          ({ gs with spec := { gs.spec with
              ports := assignPorts gs.spec.ports (findOpenPorts pa (gs.CountPorts Dynamic)) } })
          pa.gameServerRegistry hfresh rfl pop hinv.popNodup hfind]
        have hcnt : dynPortCount
            { gs with spec := { gs.spec with
                ports := assignPorts gs.spec.ports (findOpenPorts pa (gs.CountPorts Dynamic)) } }
            p = ((findOpenPorts pa (gs.CountPorts Dynamic)).filter (fun a => a.2 == p)).length := by
          unfold dynPortCount
          dsimp only
          exact assignPorts_filter_count p gs.spec.ports _ hguard2
        rw [hcnt]
        have := hinv.counts p
        unfold holderMultiplicity at this
        dsimp only at this
        omega
      · intro m hm
        dsimp only at hm ⊢
        exact foldl_markAllocation_mapWF _ (fun a ha => (hfacts a ha).2.2.2) pa.portAllocations
          hinv.mapsWF m hm
      · dsimp only
        have : (pop.map (fun g =>
            if g.objectMeta.uid == gs.objectMeta.uid then
              { gs with spec := { gs.spec with
                  ports := assignPorts gs.spec.ports
                    (findOpenPorts pa (gs.CountPorts Dynamic)) } }
            else g)).map (fun g => g.objectMeta.uid) =
            pop.map (fun g => g.objectMeta.uid) := by
          rw [List.map_map]
          apply List.map_congr_left
          intro g hg
          by_cases hgu : (g.objectMeta.uid == gs.objectMeta.uid) = true
          · have : g.objectMeta.uid = gs.objectMeta.uid := by simpa using hgu
            simp [Function.comp, hgu, this]
          · simp [Function.comp, hgu]
        rw [this]
        exact hinv.popNodup
      · dsimp only
        exact registryInsert_nodup hinv.regNodup hfresh
      · intro g2 hg2 hcont q hq hdy
        dsimp only at hg2 hcont ⊢
        obtain ⟨g, hg, hrepl⟩ := List.mem_map.mp hg2
        by_cases hgu : (g.objectMeta.uid == gs.objectMeta.uid) = true
        · rw [if_pos hgu] at hrepl
          subst hrepl
          dsimp only at hq
          exact (assignPorts_cases gs.spec.ports _
            (fun a ha => (hfacts a ha).2.2.2) hguard2 q hq).2 hdy
        · rw [if_neg hgu] at hrepl
          subst hrepl
          have hne : g.objectMeta.uid ≠ gs.objectMeta.uid := by simpa using hgu
          rw [registryInsert_contains_ne hfresh hne] at hcont
          exact hinv.regDyn g hg hcont q hq hdy
      · intro g2 hg2 q hq hdy
        dsimp only at hg2 ⊢
        obtain ⟨g, hg, hrepl⟩ := List.mem_map.mp hg2
        by_cases hgu : (g.objectMeta.uid == gs.objectMeta.uid) = true
        · rw [if_pos hgu] at hrepl
          subst hrepl
          dsimp only at hq
          have hq2 := (assignPorts_cases gs.spec.ports _
            (fun a ha => (hfacts a ha).2.2.2) hguard2 q hq).1 hdy
          exact hinv.nonDyn gs hmem q hq2 hdy
        · rw [if_neg hgu] at hrepl
          subst hrepl
          exact hinv.nonDyn g hg q hq hdy
    · refine ih
        { pa with portAllocations := pa.portAllocations ++ [newPortAllocation pa.minPort pa.maxPort] }
        pop gs pa2 gsNew ?_ hmem hfresh hfind halloc
      constructor
      · intro p
        dsimp only
        rw [countTaken_append_new]
        exact hinv.counts p
      · intro m hm
        dsimp only at hm ⊢
        rcases List.mem_append.mp hm with h1 | h1
        · exact hinv.mapsWF m h1
        · simp only [List.mem_singleton] at h1
          subst h1
          exact newPortAllocation_WF ..
      · exact hinv.popNodup
      · exact hinv.regNodup
      · exact hinv.regDyn
      · exact hinv.nonDyn

/-- DeAllocate preserves the system invariant. -/
theorem deAllocate_preserves_inv (pa : PortAllocator) (pop : List GameServer) (gs : GameServer)
    (hinv : SysInv ⟨pa, pop⟩) (hmem : gs ∈ pop)
    (hfind : findGS pop gs.objectMeta.uid = some gs) :
    SysInv ⟨DeAllocate pa gs, pop⟩ := by
  unfold DeAllocate
  by_cases hreg : pa.gameServerRegistry.contains gs.objectMeta.uid = true
  · rw [if_pos hreg]
    have hwfilter : ∀ p, ((gs.spec.ports.filter (fun q =>
        !(q.hostPort < pa.minPort || q.hostPort > pa.maxPort) && q.hostPort == p)).length =
        dynPortCount gs p) := by
      intro p
      unfold dynPortCount
      congr 1
      apply List.filter_congr
      intro q hq
      by_cases hqd : q.portPolicy = Dynamic
      · have hw := hinv.regDyn gs hmem hreg q hq hqd
        dsimp only at hw
        have h1 : decide (q.hostPort < pa.minPort) = false := by
          simp only [decide_eq_false_iff_not]
          omega
        have h2 : decide (q.hostPort > pa.maxPort) = false := by
          simp only [decide_eq_false_iff_not]
          omega
        have h3 : (q.portPolicy == Dynamic) = true := by simp [hqd]
        rw [h1, h2, h3]
        simp
      · have hw := hinv.nonDyn gs hmem q hq hqd
        dsimp only at hw
        have h3 : (q.portPolicy == Dynamic) = false := by simp [hqd]
        have h12 : (q.hostPort < pa.minPort || q.hostPort > pa.maxPort) = true := by
          rcases hw with h | h <;> simp [h]
        rw [h12, h3]
        simp
    have hle : ∀ p, ((gs.spec.ports.filter (fun q =>
        !(q.hostPort < pa.minPort || q.hostPort > pa.maxPort) && q.hostPort == p)).length ≤
        countTaken pa.portAllocations p) := by
      intro p
      rw [hwfilter p, hinv.counts p]
      unfold holderMultiplicity
      have hterm : (if pa.gameServerRegistry.contains gs.objectMeta.uid = true then
          dynPortCount gs p else 0) ∈
          pop.map (fun g => if pa.gameServerRegistry.contains g.objectMeta.uid = true then
            dynPortCount g p else 0) :=
        List.mem_map.mpr ⟨gs, hmem, rfl⟩
      rw [if_pos hreg] at hterm
      exact List.single_le_sum (fun x _ => Nat.zero_le x) _ hterm
    constructor
    · intro p
      dsimp only
      have hfold := freeFold_counts pa.minPort pa.maxPort gs.spec.ports pa.portAllocations hle p
      have herase := sum_holder_erase p gs.objectMeta.uid pa.gameServerRegistry hinv.regNodup hreg
        pop hinv.popNodup gs hfind
      unfold holderMultiplicity
      dsimp only
      rw [hwfilter p] at hfold
      have hc := hinv.counts p
      unfold holderMultiplicity at hc
      dsimp only at hc
      omega
    · intro m hm
      dsimp only at hm ⊢
      exact freeFold_mapWF pa.minPort pa.maxPort gs.spec.ports pa.portAllocations hinv.mapsWF m hm
    · exact hinv.popNodup
    · dsimp only
      exact hinv.regNodup.erase _
    · intro g hg hcont q hq hdy
      dsimp only at hcont ⊢
      have hcont2 : pa.gameServerRegistry.contains g.objectMeta.uid = true :=
        contains_iff_mem.mpr (List.mem_of_mem_erase (contains_iff_mem.mp hcont))
      exact hinv.regDyn g hg hcont2 q hq hdy
    · exact hinv.nonDyn
  · rw [if_neg hreg]
    exact hinv

/-- One legal call preserves the system invariant. -/
theorem stepOp_preserves_inv (st : AllocatorSystem) (op : AllocatorOp)
    (hinv : SysInv st) (hlegal : opLegal st op = true) : SysInv (stepOp st op) := by
  obtain ⟨pa, pop⟩ := st
  cases op with
  | allocate uid =>
    unfold stepOp
    dsimp only
    cases hfind : findGS pop uid with
    | none => exact hinv
    | some gs =>
      dsimp only
      have hpred := List.find?_some hfind
      have huid : gs.objectMeta.uid = uid := by simpa using hpred
      have hmem : gs ∈ pop := List.mem_of_find?_eq_some hfind
      have hfresh : pa.gameServerRegistry.contains gs.objectMeta.uid = false := by
        unfold opLegal at hlegal
        dsimp only at hlegal
        rw [huid]
        rcases Bool.eq_false_or_eq_true (pa.gameServerRegistry.contains uid) with h1 | h1
        · rw [h1] at hlegal
          simp at hlegal
        · exact h1
      cases halloc : Allocate pa gs with
      | none =>
        dsimp only
        exact hinv
      | some pr =>
        obtain ⟨pa2, gsNew⟩ := pr
        dsimp only
        rw [← huid]
        exact allocateFuel_preserves_inv (gs.CountPorts Dynamic + 1) pa pop gs pa2 gsNew hinv
          hmem hfresh (by rw [huid, hfind]; rfl) halloc
  | deallocate uid =>
    unfold stepOp
    dsimp only
    cases hfind : findGS pop uid with
    | none => exact hinv
    | some gs =>
      dsimp only
      have hpred := List.find?_some hfind
      have huid : gs.objectMeta.uid = uid := by simpa using hpred
      have hmem : gs ∈ pop := List.mem_of_find?_eq_some hfind
      exact deAllocate_preserves_inv pa pop gs hinv hmem (by rw [huid, hfind])

/-- A legal call sequence preserves the system invariant. -/
theorem runOps_preserves_inv :
    ∀ (ops : List AllocatorOp) (st : AllocatorSystem),
      SysInv st → legalOps st ops = true → SysInv (runOps st ops) := by
  intro ops
  induction ops with
  | nil => intro st hinv _; exact hinv
  | cons op rest ih =>
    intro st hinv hlegal
    unfold legalOps at hlegal
    rw [Bool.and_eq_true] at hlegal
    exact ih (stepOp st op) (stepOp_preserves_inv st op hinv hlegal.1) hlegal.2

/-- The freshly constructed allocator satisfies the invariant over any
population with distinct UIDs whose non-dynamic ports avoid the window. -/
theorem initSys_inv (minP maxP : Int) (pop : List GameServer)
    (hnodup : (pop.map (fun g => g.objectMeta.uid)).Nodup)
    (hstatic : ∀ g ∈ pop, ∀ q ∈ g.spec.ports, q.portPolicy ≠ Dynamic →
      (q.hostPort < minP ∨ maxP < q.hostPort)) :
    SysInv (initSys minP maxP pop) := by
  constructor
  · intro p
    unfold initSys countTaken holderMultiplicity
    dsimp only
    induction pop with
    | nil => rfl
    | cons g rest ih =>
      simp only [List.map_cons, List.sum_cons, List.contains_nil]
      simp [ih]
  · intro n hn
    simp [initSys] at hn
  · exact hnodup
  · exact List.nodup_nil
  · intro g _ hcont
    simp [initSys, List.contains] at hcont
  · exact hstatic

/-- C1 (amended).  From a freshly constructed allocator, after any sequence
of Allocate/DeAllocate calls in which Allocate never targets a GameServer
already in the registry, and over a population with distinct UIDs whose
non-dynamic ports lie outside the window, every port value is marked taken
in exactly as many node maps as there are dynamic-port slots holding it
across registered GameServers. -/
theorem port_allocator_uniqueness (minP maxP : Int) (pop : List GameServer)
    (ops : List AllocatorOp)
    (hnodup : (pop.map (fun g => g.objectMeta.uid)).Nodup)
    (hstatic : ∀ g ∈ pop, ∀ q ∈ g.spec.ports, q.portPolicy ≠ Dynamic →
      (q.hostPort < minP ∨ maxP < q.hostPort))
    (hlegal : legalOps (initSys minP maxP pop) ops = true) :
    ∀ p : Int,
      countTaken (runOps (initSys minP maxP pop) ops).alloc.portAllocations p =
        holderMultiplicity (runOps (initSys minP maxP pop) ops) p :=
  fun p => (runOps_preserves_inv ops (initSys minP maxP pop)
    (initSys_inv minP maxP pop hnodup hstatic) hlegal).counts p

/-- Witness for C1: two single-dynamic-port GameServers on the window
[7000, 7001]; allocate both, then de-allocate the first. -/
theorem port_allocator_uniqueness_witness :
    ((witnessPop.map (fun g => g.objectMeta.uid)).Nodup ∧
     (∀ g ∈ witnessPop, ∀ q ∈ g.spec.ports, q.portPolicy ≠ Dynamic →
       (q.hostPort < 7000 ∨ 7001 < q.hostPort)) ∧
     legalOps (initSys 7000 7001 witnessPop) witnessOps = true) ∧
    ∀ p : Int,
      countTaken (runOps (initSys 7000 7001 witnessPop) witnessOps).alloc.portAllocations p =
        holderMultiplicity (runOps (initSys 7000 7001 witnessPop) witnessOps) p :=
  ⟨⟨by decide, by decide, by decide⟩,
   port_allocator_uniqueness 7000 7001 witnessPop witnessOps (by decide) (by decide) (by decide)⟩

/-- C1 counterexample to the claim as stated: on the one-port window
[7000, 7000], a single legal Allocate for a GameServer requesting two
dynamic ports marks port 7000 taken in **two** node maps while exactly
**one** registered GameServer holds 7000 — not "exactly one node map", and
the map count differs from the GameServer count. -/
theorem port_allocator_uniqueness_counterexample :
    legalOps (initSys 7000 7000 [twoDynGS]) [AllocatorOp.allocate "u1"] = true ∧
    countTaken
      (runOps (initSys 7000 7000 [twoDynGS]) [AllocatorOp.allocate "u1"]).alloc.portAllocations
      7000 = 2 ∧
    holderServers (runOps (initSys 7000 7000 [twoDynGS]) [AllocatorOp.allocate "u1"]) 7000 = 1 := by
  decide

/-- Assignment does not change how many ports carry each policy. -/
theorem assignPorts_policy_count (policy : String) :
    ∀ (ports : List GameServerPort) (allocs : List (Nat × Int)),
      ((assignPorts ports allocs).filter (fun q => q.portPolicy == policy)).length =
        (ports.filter (fun q => q.portPolicy == policy)).length := by
  intro ports
  induction ports with
  | nil => intro allocs; rfl
  | cons q qs ih =>
    intro allocs
    unfold assignPorts
    by_cases hq : (q.portPolicy == Dynamic) = true
    · rw [if_pos hq]
      cases allocs with
      | nil =>
        rw [List.filter_cons, List.filter_cons]
        split
        · simp [ih]
        · exact ih []
      | cons a rest =>
        rw [List.filter_cons, List.filter_cons]
        have hpol : ({ q with hostPort := a.2 } : GameServerPort).portPolicy = q.portPolicy := rfl
        by_cases hqp : (q.portPolicy == policy) = true
        · rw [if_pos (by rw [hpol]; exact hqp), if_pos hqp]
          simp [ih]
        · rw [if_neg (by rw [hpol]; exact fun hh => hqp hh), if_neg (fun hh => hqp hh)]
          exact ih rest
    · rw [if_neg hq]
      rw [List.filter_cons, List.filter_cons]
      split
      · simp [ih]
      · exact ih allocs

/-- Open ports lie inside the window whenever the node-map keys do. -/
theorem findOpenPorts_window (pa : PortAllocator) (amount : Nat)
    (hb : ∀ n ∈ pa.portAllocations, ∀ e ∈ n, pa.minPort ≤ e.1 ∧ e.1 ≤ pa.maxPort) :
    ∀ a ∈ findOpenPorts pa amount, pa.minPort ≤ a.2 ∧ a.2 ≤ pa.maxPort := by
  intro a ha
  have hmem := (findOpenPorts_sublist pa amount).subset ha
  obtain ⟨-, hlt, hentry⟩ := mem_allOpenPortsFrom pa.portAllocations 0 hmem
  rw [Nat.sub_zero] at hlt hentry
  exact hb _ (getD_mem _ _ hlt) _ hentry

/-- When enough ports are already free, one level of the recursion commits
and assigns in-window ports to every dynamic port. -/
theorem allocateFuel_succeeds_now (pa : PortAllocator) (gs : GameServer) (fuel : Nat)
    (hb : ∀ n ∈ pa.portAllocations, ∀ e ∈ n, pa.minPort ≤ e.1 ∧ e.1 ≤ pa.maxPort)
    (hamount : 1 ≤ gs.CountPorts Dynamic)
    (hfree : gs.CountPorts Dynamic ≤ freeCount pa.portAllocations) :
    ∃ pa2 gsNew, allocateFuel (fuel + 1) pa gs = some (pa2, gsNew) ∧
      gsNew.CountPorts Dynamic = gs.CountPorts Dynamic ∧
      ∀ q ∈ gsNew.spec.ports, q.portPolicy = Dynamic →
        pa.minPort ≤ q.hostPort ∧ q.hostPort ≤ pa.maxPort := by
  have hlen : (findOpenPorts pa (gs.CountPorts Dynamic)).length = gs.CountPorts Dynamic := by
    rw [findOpenPorts_length pa _ hamount]
    omega
  refine ⟨{ pa with
      gameServerRegistry := registryInsert pa.gameServerRegistry gs.objectMeta.uid,
      portAllocations :=
        (findOpenPorts pa (gs.CountPorts Dynamic)).foldl markAllocation pa.portAllocations },
    { gs with spec := { gs.spec with
        ports := assignPorts gs.spec.ports (findOpenPorts pa (gs.CountPorts Dynamic)) } },
    ?_, ?_, ?_⟩
  · unfold allocateFuel
    dsimp only
    rw [if_pos hlen]
  · unfold GameServer.CountPorts
    dsimp only
    exact assignPorts_policy_count Dynamic gs.spec.ports (findOpenPorts pa (gs.CountPorts Dynamic))
  · intro q hq hdy
    dsimp only at hq
    exact (assignPorts_cases gs.spec.ports _
      (findOpenPorts_window pa _ hb) hlen q hq).2 hdy

/-- Fuel sufficiency: with at least one dynamic port, `k` retries cover any
shortfall of `k` free ports, since each retry appends a full window. -/
theorem allocateFuel_succeeds (gs : GameServer) :
    ∀ (k : Nat) (pa : PortAllocator),
      pa.minPort ≤ pa.maxPort →
      (∀ n ∈ pa.portAllocations, ∀ e ∈ n, pa.minPort ≤ e.1 ∧ e.1 ≤ pa.maxPort) →
      1 ≤ gs.CountPorts Dynamic →
      gs.CountPorts Dynamic ≤ freeCount pa.portAllocations + k →
      ∃ pa2 gsNew, allocateFuel (k + 1) pa gs = some (pa2, gsNew) ∧
        gsNew.CountPorts Dynamic = gs.CountPorts Dynamic ∧
        ∀ q ∈ gsNew.spec.ports, q.portPolicy = Dynamic →
          pa.minPort ≤ q.hostPort ∧ q.hostPort ≤ pa.maxPort := by
  intro k
  induction k with
  | zero =>
    intro pa hmm hb hamount hfree
    exact allocateFuel_succeeds_now pa gs 0 hb hamount (by omega)
  | succ j ih =>
    intro pa hmm hb hamount hfree
    by_cases henough : gs.CountPorts Dynamic ≤ freeCount pa.portAllocations
    · exact allocateFuel_succeeds_now pa gs (j + 1) hb hamount henough
    · have hlen : (findOpenPorts pa (gs.CountPorts Dynamic)).length ≠ gs.CountPorts Dynamic := by
        rw [findOpenPorts_length pa _ hamount]
        omega
      have hb2 : ∀ n ∈ pa.portAllocations ++ [newPortAllocation pa.minPort pa.maxPort],
          ∀ e ∈ n, pa.minPort ≤ e.1 ∧ e.1 ≤ pa.maxPort := by
        intro n hn e he
        rcases List.mem_append.mp hn with h1 | h1
        · exact hb n h1 e he
        · simp only [List.mem_singleton] at h1
          subst h1
          exact (newPortAllocation_WF pa.minPort pa.maxPort).2 e he
      have hfree2 : gs.CountPorts Dynamic ≤
          freeCount (pa.portAllocations ++ [newPortAllocation pa.minPort pa.maxPort]) + j := by
        rw [freeCount_append_new]
        omega
      obtain ⟨pa2, gsNew, hsome, hcnt, hwin⟩ := ih
        { pa with portAllocations :=
            pa.portAllocations ++ [newPortAllocation pa.minPort pa.maxPort] }
        hmm hb2 hamount hfree2
      refine ⟨pa2, gsNew, ?_, hcnt, hwin⟩
      unfold allocateFuel
      dsimp only
      rw [if_neg hlen]
      exact hsome

/-- C2 (amended).  For a GameServer with at least one dynamic port and an
allocator with `minPort ≤ maxPort` whose node maps stay inside the window
(in particular the freshly constructed empty allocator), `Allocate`
terminates, every dynamic port is assigned a HostPort inside
`[minPort, maxPort]`, and the number of dynamic ports is unchanged — never
fewer ports than requested. -/
theorem allocate_total_and_in_window (pa : PortAllocator) (gs : GameServer)
    (hminmax : pa.minPort ≤ pa.maxPort)
    (hbounds : ∀ n ∈ pa.portAllocations, ∀ e ∈ n, pa.minPort ≤ e.1 ∧ e.1 ≤ pa.maxPort)
    (hdyn : 1 ≤ gs.CountPorts Dynamic) :
    AllocateTerminates pa gs ∧
    ∃ pa2 gsNew, Allocate pa gs = some (pa2, gsNew) ∧
      gsNew.CountPorts Dynamic = gs.CountPorts Dynamic ∧
      ∀ q ∈ gsNew.spec.ports, q.portPolicy = Dynamic →
        pa.minPort ≤ q.hostPort ∧ q.hostPort ≤ pa.maxPort := by
  obtain ⟨pa2, gsNew, hsome, hcnt, hwin⟩ :=
    allocateFuel_succeeds gs (gs.CountPorts Dynamic) pa hminmax hbounds hdyn (by omega)
  refine ⟨⟨gs.CountPorts Dynamic + 1, ?_⟩, pa2, gsNew, hsome, hcnt, hwin⟩
  rw [hsome]
  rfl

/-- Witness for C2: the freshly constructed allocator (empty node-map list,
window [7000, 7001]) still satisfies a two-dynamic-port request. -/
theorem allocate_total_and_in_window_witness :
    (emptyPA.minPort ≤ emptyPA.maxPort ∧
     (∀ n ∈ emptyPA.portAllocations, ∀ e ∈ n, emptyPA.minPort ≤ e.1 ∧ e.1 ≤ emptyPA.maxPort) ∧
     1 ≤ twoDynGS.CountPorts Dynamic ∧ emptyPA.portAllocations = []) ∧
    (AllocateTerminates emptyPA twoDynGS ∧
     ∃ pa2 gsNew, Allocate emptyPA twoDynGS = some (pa2, gsNew) ∧
       gsNew.CountPorts Dynamic = twoDynGS.CountPorts Dynamic ∧
       ∀ q ∈ gsNew.spec.ports, q.portPolicy = Dynamic →
         emptyPA.minPort ≤ q.hostPort ∧ q.hostPort ≤ emptyPA.maxPort) :=
  ⟨⟨by decide, by decide, by decide, rfl⟩,
   allocate_total_and_in_window emptyPA twoDynGS (by decide) (by decide) (by decide)⟩

/-- With zero dynamic ports requested and at least one free port, every
level of the Go recursion fails the length test and retries forever. -/
theorem allocateFuel_zero_dynamic_diverges :
    ∀ (fuel : Nat) (pa : PortAllocator) (gs : GameServer),
      gs.CountPorts Dynamic = 0 → 1 ≤ freeCount pa.portAllocations →
      allocateFuel fuel pa gs = none := by
  intro fuel
  induction fuel with
  | zero => intro pa gs _ _; rfl
  | succ n ih =>
    intro pa gs h0 h1
    unfold allocateFuel
    dsimp only
    rw [if_neg]
    · apply ih _ gs h0
      rw [freeCount_append_new]
      omega
    · rw [h0]
      unfold findOpenPorts
      rw [if_pos rfl]
      unfold freeCount at h1
      omega

/-- C2 counterexample to the claim as stated: this allocator has
`minPort ≤ maxPort` (7000 ≤ 7001) and one free port, yet `Allocate` on a
GameServer with only a static port (zero dynamic ports) never terminates:
the Go recursion appends node maps forever. -/
theorem allocate_nonterminating_counterexample :
    oneFreePortPA.minPort ≤ oneFreePortPA.maxPort ∧
    staticOnlyGS.CountPorts Dynamic = 0 ∧
    ¬ AllocateTerminates oneFreePortPA staticOnlyGS := by
  refine ⟨by decide, by decide, ?_⟩
  rintro ⟨fuel, hsome⟩
  rw [allocateFuel_zero_dynamic_diverges fuel oneFreePortPA staticOnlyGS (by decide)
    (by decide)] at hsome
  simp at hsome

end Agones
